import Mathlib

set_option maxHeartbeats 1000000

namespace Untools

/-- Execution-context descriptor of the logger (`this.env` in the source),
as computed by `getEnvironment`. -/
structure Env where
  isDevelopment : Bool
  isNode : Bool
  isBrowser : Bool
  isEdgeRuntime : Bool
deriving DecidableEq, Repr

/-- The `domElementFormat` option: `"inspect" | "summary" | "disabled"`. -/
inductive DomElementFormat where
  | inspect
  | summary
  | disabled
deriving DecidableEq, Repr

/-- Configuration state of a `Logger` instance: the fields consulted by the
value formatter.  `prettyPrint`, `indentSize` and `useColors` exist only in
the extended logger (`src/unnamed/part_001`); the basic formatter
(`src/src/index.ts`) ignores them. -/
structure Logger where
  maxDepth : Nat
  maxStringLength : Nat
  enableCircularHandling : Bool
  domElementFormat : DomElementFormat
  prettyPrint : Bool
  indentSize : Nat
  useColors : Bool
  env : Env
deriving DecidableEq, Repr

/-- A JavaScript runtime value, as the formatter's type dispatch distinguishes
them.  Primitives carry their `String(value)` rendering where JavaScript's own
stringification is not worth re-modelling (numbers, symbols, bigints).
Containers (arrays, plain objects, host elements) live on a heap and are
referenced by identity (`vref`), which is what makes sharing and cycles
representable, exactly as JavaScript object references do. -/
inductive JSVal where
  | vnull
  | vundefined
  | vstr (s : String)
  | vnum (s : String)
  | vbool (b : Bool)
  | vsymbol (s : String)
  | vbigint (s : String)
  | vfunc (name : String)
  | verror (name message stack : String)
  | vdate (iso : String)
  | vregexp (src : String)
  | vref (r : Nat)
  | vother (s : String)
deriving DecidableEq, Repr

/-- One attribute of a host DOM element (`attr.name`, `attr.value`). -/
structure Attr where
  name : String
  value : String
deriving DecidableEq, Repr

/-- A heap object: an array, a plain object (its `Object.entries` list, i.e.
own enumerable string-keyed properties in insertion order), an object whose
enumeration throws (`Object.entries` raises with the given message, the
`catch` branch of the source), or a host DOM element (tag name, attributes,
number of children).  Host elements expose no own enumerable string-keyed
properties, so when one reaches the generic object branch its entry list is
empty. -/
inductive HObj where
  | arr (elems : List JSVal)
  | obj (entries : List (String × JSVal))
  | objThrows (message : String)
  | elem (tagName : String) (attrs : List Attr) (childCount : Nat)
deriving DecidableEq, Repr

/-- The heap: every reference denotes an object (JavaScript references are
always valid). -/
abbrev Heap := Nat → HObj

/-- JavaScript `Array.prototype.flatten` with a separator. -/
def joinSep (sep : String) : List String → String
  | [] => ""
  | [x] => x
  | x :: y :: rest => x ++ sep ++ joinSep sep (y :: rest)

/-- The attribute string built by `formatDOMElement` in `inspect` mode:
`attributes += \x20${attr.name}="${attr.value}"` over the attribute list. -/
def formatAttrs (attrs : List Attr) : String :=
  attrs.foldl (fun acc a => acc ++ " " ++ a.name ++ "=\"" ++ a.value ++ "\"") ""

/-- JavaScript `String.prototype.toLowerCase`, modelled as a per-character
lowercase map. -/
def toLowerStr (s : String) : String := String.mk (s.data.map Char.toLower)

namespace V1

/-- Model of `formatDOMElement` from `src/src/index.ts` (lines 108-130): no
environment safety check; `disabled` yields the placeholder, `inspect` yields
the tag with full attributes and a child count when there are children,
otherwise (`summary`) tag plus attribute and child counts. -/
def formatDOMElement (L : Logger) (tagName : String) (attrs : List Attr)
    (childCount : Nat) : String :=
  if L.domElementFormat = .disabled then "[DOM Element]"
  else if L.domElementFormat = .inspect then
    let attributes := formatAttrs attrs
    let children :=
      if childCount > 0 then " (" ++ toString childCount ++ " children)" else ""
    "<" ++ toLowerStr tagName ++ attributes ++ ">" ++ children
  else
    "<" ++ toLowerStr tagName ++ "> with " ++ toString attrs.length ++
      " attributes and " ++ toString childCount ++ " children"

mutual

/-- Model of `formatArgument` from `src/src/index.ts` (lines 132-229).  The
`seen` WeakMap is an identity set of heap references, threaded in evaluation
order because the source mutates one shared WeakMap.  The result pairs the
rendered string with the final state of `seen`.  The element check is gated
on `typeof window !== "undefined" && window.Element` (modelled as
`L.env.isBrowser`); an element in a non-browser context falls through to the
generic object branch with an empty entry list. -/
def formatArgument (L : Logger) (h : Heap) (arg : JSVal) (depth : Nat)
    (seen : List Nat) : String × List Nat :=
  if depth > L.maxDepth then ("[Max Depth Reached]", seen)
  else
    match arg with
    | .vnull => ("null", seen)
    | .vundefined => ("undefined", seen)
    | .vstr s =>
      if s.length > L.maxStringLength then
        (s.take L.maxStringLength ++ "... [truncated, " ++ toString s.length ++
          " chars total]", seen)
      else (s, seen)
    | .vnum s => (s, seen)
    | .vbool b => (if b then "true" else "false", seen)
    | .vsymbol s => (s, seen)
    | .vbigint s => (s, seen)
    | .vfunc name =>
      ("[Function: " ++ (if name = "" then "anonymous" else name) ++ "]", seen)
    | .verror name message stack => (name ++ ": " ++ message ++ "\n" ++ stack, seen)
    | .vdate iso => (iso, seen)
    | .vregexp src => (src, seen)
    | .vother s => (s, seen)
    | .vref r =>
      match h r with
      | .elem tagName attrs childCount =>
        if L.env.isBrowser then (formatDOMElement L tagName attrs childCount, seen)
        else
          if L.enableCircularHandling && r ∈ seen then ("[Circular Reference]", seen)
          else
            let seen1 := if L.enableCircularHandling then r :: seen else seen
            ("\x7b" ++ joinSep ", " [] ++ "\x7d", seen1)
      | .arr elems =>
        if L.enableCircularHandling && r ∈ seen then ("[Circular Reference]", seen)
        else
          let seen1 := if L.enableCircularHandling then r :: seen else seen
          let p := fmtItems L h elems (depth + 1) seen1
          ("[" ++ joinSep ", " p.1 ++ "]", p.2)
      | .obj entries =>
        if L.enableCircularHandling && r ∈ seen then ("[Circular Reference]", seen)
        else
          let seen1 := if L.enableCircularHandling then r :: seen else seen
          let p := fmtEntries L h entries (depth + 1) seen1
          ("\x7b" ++ joinSep ", " p.1 ++ "\x7d", p.2)
      | .objThrows message =>
        if L.enableCircularHandling && r ∈ seen then ("[Circular Reference]", seen)
        else
          let seen1 := if L.enableCircularHandling then r :: seen else seen
          ("[Object: failed to stringify - " ++ message ++ "]", seen1)
termination_by (L.maxDepth + 1 - depth, 0, 0)

/-- Sequentially formats array elements (`arg.map((item) =>
this.formatArgument(item, depth + 1, seen))`), threading the shared `seen`
set left to right. -/
def fmtItems (L : Logger) (h : Heap) (items : List JSVal) (depth : Nat)
    (seen : List Nat) : List String × List Nat :=
  match items with
  | [] => ([], seen)
  | item :: rest =>
    let p := formatArgument L h item depth seen
    let q := fmtItems L h rest depth p.2
    (p.1 :: q.1, q.2)
termination_by (L.maxDepth + 1 - depth, 1, items.length)

/-- Sequentially formats object entries (`Object.entries(arg).map(([key,
value]) => key + ": " + this.formatArgument(value, depth + 1, seen))`),
threading the shared `seen` set left to right. -/
def fmtEntries (L : Logger) (h : Heap) (entries : List (String × JSVal))
    (depth : Nat) (seen : List Nat) : List String × List Nat :=
  match entries with
  | [] => ([], seen)
  | (key, value) :: rest =>
    let p := formatArgument L h value depth seen
    let q := fmtEntries L h rest depth p.2
    ((key ++ ": " ++ p.1) :: q.1, q.2)
termination_by (L.maxDepth + 1 - depth, 1, entries.length)

end

end V1

/-- Threads a fallible per-element formatting step over a list, left to
right, propagating the evolving `seen` set.  Used by the fuel-indexed
approximations of the formatters; `none` means the step ran out of fuel. -/
def threadFmt {α : Type} (f : α → List Nat → Option (String × List Nat)) :
    List α → List Nat → Option (List String × List Nat)
  | [], seen => some ([], seen)
  | a :: rest, seen =>
    match f a seen with
    | none => none
    | some (s, seen1) =>
      match threadFmt f rest seen1 with
      | none => none
      | some (ss, seen2) => some (s :: ss, seen2)

namespace V1

/-- Fuel-indexed approximation of `V1.formatArgument`: `fuel` bounds the
number of nested `formatArgument` stack frames still allowed, and `none`
means that bound was hit.  `formatArgumentF_eq_formatArgument` shows a fuel
of `maxDepth + 2 - depth` always suffices, which is the depth bound of the
recursion. -/
def formatArgumentF (L : Logger) (h : Heap) :
    Nat → JSVal → Nat → List Nat → Option (String × List Nat)
  | 0, _, _, _ => none
  | fuel + 1, arg, depth, seen =>
    if depth > L.maxDepth then some ("[Max Depth Reached]", seen)
    else
      match arg with
      | .vnull => some ("null", seen)
      | .vundefined => some ("undefined", seen)
      | .vstr s =>
        if s.length > L.maxStringLength then
          some (s.take L.maxStringLength ++ "... [truncated, " ++
            toString s.length ++ " chars total]", seen)
        else some (s, seen)
      | .vnum s => some (s, seen)
      | .vbool b => some (if b then "true" else "false", seen)
      | .vsymbol s => some (s, seen)
      | .vbigint s => some (s, seen)
      | .vfunc name =>
        some ("[Function: " ++ (if name = "" then "anonymous" else name) ++ "]", seen)
      | .verror name message stack =>
        some (name ++ ": " ++ message ++ "\n" ++ stack, seen)
      | .vdate iso => some (iso, seen)
      | .vregexp src => some (src, seen)
      | .vother s => some (s, seen)
      | .vref r =>
        match h r with
        | .elem tagName attrs childCount =>
          if L.env.isBrowser then some (formatDOMElement L tagName attrs childCount, seen)
          else
            if L.enableCircularHandling && r ∈ seen then some ("[Circular Reference]", seen)
            else
              let seen1 := if L.enableCircularHandling then r :: seen else seen
              some ("\x7b" ++ joinSep ", " [] ++ "\x7d", seen1)
        | .arr elems =>
          if L.enableCircularHandling && r ∈ seen then some ("[Circular Reference]", seen)
          else
            let seen1 := if L.enableCircularHandling then r :: seen else seen
            match threadFmt (fun item s => formatArgumentF L h fuel item (depth + 1) s)
                elems seen1 with
            | none => none
            | some (strs, seen2) => some ("[" ++ joinSep ", " strs ++ "]", seen2)
        | .obj entries =>
          if L.enableCircularHandling && r ∈ seen then some ("[Circular Reference]", seen)
          else
            let seen1 := if L.enableCircularHandling then r :: seen else seen
            match threadFmt (fun kv s =>
                match formatArgumentF L h fuel kv.2 (depth + 1) s with
                | none => none
                | some p => some (kv.1 ++ ": " ++ p.1, p.2)) entries seen1 with
            | none => none
            | some (strs, seen2) => some ("\x7b" ++ joinSep ", " strs ++ "\x7d", seen2)
        | .objThrows message =>
          if L.enableCircularHandling && r ∈ seen then some ("[Circular Reference]", seen)
          else
            let seen1 := if L.enableCircularHandling then r :: seen else seen
            some ("[Object: failed to stringify - " ++ message ++ "]", seen1)

/-- The container references the basic formatter visits (and registers when
circular handling is on) within the depth bound, in traversal order,
disregarding the seen set — i.e. the reference trace of a run with circular
handling disabled.  Only `maxDepth` and the environment of `L` are
consulted, never the circular-handling flag. -/
def refsF (L : Logger) (h : Heap) : Nat → JSVal → Nat → List Nat
  | 0, _, _ => []
  | fuel + 1, arg, depth =>
    if depth > L.maxDepth then []
    else
      match arg with
      | .vref r =>
        match h r with
        | .elem _ _ _ => if L.env.isBrowser then [] else [r]
        | .arr elems =>
          r :: (elems.map (fun item => refsF L h fuel item (depth + 1))).flatten
        | .obj entries =>
          r :: (entries.map (fun kv => refsF L h fuel kv.2 (depth + 1))).flatten
        | .objThrows _ => [r]
      | _ => []

end V1

/-- The token categories of the `ColorScheme` records of the extended logger
(`src/unnamed/part_001`). -/
inductive ColorType where
  | string
  | number
  | boolean
  | null
  | undefined
  | function
  | symbol
  | date
  | regexp
  | key
  | bracket
  | circular
  | truncated
  | maxDepth
  | reset
deriving DecidableEq, Repr

/-- The `consoleColors` ANSI scheme installed by the extended logger's
constructor. -/
def consoleColors : ColorType → String
  | .string => "\x1b[32m"
  | .number => "\x1b[36m"
  | .boolean => "\x1b[35m"
  | .null => "\x1b[90m"
  | .undefined => "\x1b[90m"
  | .function => "\x1b[36m"
  | .symbol => "\x1b[35m"
  | .date => "\x1b[34m"
  | .regexp => "\x1b[35m"
  | .key => "\x1b[33m"
  | .bracket => "\x1b[90m"
  | .circular => "\x1b[31m"
  | .truncated => "\x1b[90m"
  | .maxDepth => "\x1b[90m"
  | .reset => "\x1b[0m"

namespace V2

/-- Model of `colorizeText` from `src/unnamed/part_001` (lines 277-285):
wraps the text in the ANSI code of its token category and a reset marker,
but only when colors are enabled and the environment is Node and not the
Edge runtime; in a browser, colorization happens elsewhere via CSS. -/
def colorizeText (L : Logger) (text : String) (ty : ColorType) : String :=
  if !L.useColors then text
  else if L.env.isNode && !L.env.isEdgeRuntime then
    consoleColors ty ++ text ++ consoleColors .reset
  else text

/-- Model of `getIndentation`: a run of spaces of length
`depth * indentSize`. -/
def getIndentation (L : Logger) (depth : Nat) : String :=
  String.mk (List.replicate (depth * L.indentSize) ' ')

/-- Model of `formatDOMElement` from `src/unnamed/part_001` (lines 240-275).
The safety check `!this.env.isBrowser || !element || typeof element.tagName
!== "string"` reduces in this model to the environment test, because a
modelled element always carries a string tag name. -/
def formatDOMElement (L : Logger) (tagName : String) (attrs : List Attr)
    (childCount : Nat) : String :=
  if L.domElementFormat = .disabled then "[DOM Element]"
  else if !L.env.isBrowser then "[DOM Element]"
  else if L.domElementFormat = .inspect then
    let attributes := formatAttrs attrs
    let children :=
      if childCount > 0 then " (" ++ toString childCount ++ " children)" else ""
    "<" ++ toLowerStr tagName ++ attributes ++ ">" ++ children
  else
    "<" ++ toLowerStr tagName ++ "> with " ++ toString attrs.length ++
      " attributes and " ++ toString childCount ++ " children"

mutual

/-- Model of `formatArgument` from `src/unnamed/part_001` (lines 291-475).
The `options` record is flattened into the `depth`, `seen` and `indentation`
parameters (the source defaults: depth 0, fresh seen map, empty
indentation).  As in `V1.formatArgument`, the shared mutated `seen` WeakMap
is threaded through in evaluation order and returned with the rendered
string. -/
def formatArgument (L : Logger) (h : Heap) (arg : JSVal) (depth : Nat)
    (seen : List Nat) (indentation : String) : String × List Nat :=
  if depth > L.maxDepth then (colorizeText L "[Max Depth Reached]" .maxDepth, seen)
  else
    match arg with
    | .vnull => (colorizeText L "null" .null, seen)
    | .vundefined => (colorizeText L "undefined" .undefined, seen)
    | .vstr s =>
      if s.length > L.maxStringLength then
        (colorizeText L ("\"" ++ (s.take L.maxStringLength ++ "...") ++ "\"") .string ++
          colorizeText L (" [truncated, " ++ toString s.length ++ " chars total]")
            .truncated, seen)
      else (colorizeText L ("\"" ++ s ++ "\"") .string, seen)
    | .vnum s => (colorizeText L s .number, seen)
    | .vbool b => (colorizeText L (if b then "true" else "false") .boolean, seen)
    | .vsymbol s => (colorizeText L s .symbol, seen)
    | .vbigint s => (colorizeText L (s ++ "n") .number, seen)
    | .vfunc name =>
      (colorizeText L ("[Function: " ++ (if name = "" then "anonymous" else name) ++ "]")
        .function, seen)
    | .verror name message stack => (name ++ ": " ++ message ++ "\n" ++ stack, seen)
    | .vdate iso => (colorizeText L iso .date, seen)
    | .vregexp src => (colorizeText L src .regexp, seen)
    | .vother s => (s, seen)
    | .vref r =>
      match h r with
      | .elem tagName attrs childCount =>
        if L.env.isBrowser then (formatDOMElement L tagName attrs childCount, seen)
        else
          if L.enableCircularHandling && r ∈ seen then
            (colorizeText L "[Circular Reference]" .circular, seen)
          else
            let seen1 := if L.enableCircularHandling then r :: seen else seen
            (colorizeText L "\x7b\x7d" .bracket, seen1)
      | .arr elems =>
        if L.enableCircularHandling && r ∈ seen then
          (colorizeText L "[Circular Reference]" .circular, seen)
        else
          let seen1 := if L.enableCircularHandling then r :: seen else seen
          if elems.length = 0 then (colorizeText L "[]" .bracket, seen1)
          else if !L.prettyPrint then
            let p := fmtItems L h elems (depth + 1) seen1 ""
            (colorizeText L "[" .bracket ++ joinSep ", " p.1 ++
              colorizeText L "]" .bracket, p.2)
          else
            let nextIndent := indentation ++ getIndentation L 1
            let p := fmtItems L h elems (depth + 1) seen1 nextIndent
            (colorizeText L "[" .bracket ++ "\n" ++
              joinSep ",\n" (p.1.map (fun s => nextIndent ++ s)) ++ "\n" ++
              indentation ++ colorizeText L "]" .bracket, p.2)
      | .obj entries =>
        if L.enableCircularHandling && r ∈ seen then
          (colorizeText L "[Circular Reference]" .circular, seen)
        else
          let seen1 := if L.enableCircularHandling then r :: seen else seen
          if entries.length = 0 then (colorizeText L "\x7b\x7d" .bracket, seen1)
          else if !L.prettyPrint then
            let p := fmtEntries L h entries (depth + 1) seen1 ""
            (colorizeText L "\x7b" .bracket ++ joinSep ", " p.1 ++
              colorizeText L "\x7d" .bracket, p.2)
          else
            let nextIndent := indentation ++ getIndentation L 1
            let p := fmtEntries L h entries (depth + 1) seen1 nextIndent
            (colorizeText L "\x7b" .bracket ++ "\n" ++
              joinSep ",\n" (p.1.map (fun s => nextIndent ++ s)) ++ "\n" ++
              indentation ++ colorizeText L "\x7d" .bracket, p.2)
      | .objThrows message =>
        if L.enableCircularHandling && r ∈ seen then
          (colorizeText L "[Circular Reference]" .circular, seen)
        else
          let seen1 := if L.enableCircularHandling then r :: seen else seen
          ("[Object: failed to stringify - " ++ message ++ "]", seen1)
termination_by (L.maxDepth + 1 - depth, 0, 0)

/-- Sequentially formats array elements at the next depth, threading the
shared `seen` set; `ind` is the indentation option the parent passes to the
children (empty in compact mode, `nextIndent` in pretty mode). -/
def fmtItems (L : Logger) (h : Heap) (items : List JSVal) (depth : Nat)
    (seen : List Nat) (ind : String) : List String × List Nat :=
  match items with
  | [] => ([], seen)
  | item :: rest =>
    let p := formatArgument L h item depth seen ind
    let q := fmtItems L h rest depth p.2 ind
    (p.1 :: q.1, q.2)
termination_by (L.maxDepth + 1 - depth, 1, items.length)

/-- Sequentially formats object entries at the next depth as
`colorizedKey: value`, threading the shared `seen` set; `ind` is the
indentation option passed to the children. -/
def fmtEntries (L : Logger) (h : Heap) (entries : List (String × JSVal))
    (depth : Nat) (seen : List Nat) (ind : String) : List String × List Nat :=
  match entries with
  | [] => ([], seen)
  | (key, value) :: rest =>
    let p := formatArgument L h value depth seen ind
    let q := fmtEntries L h rest depth p.2 ind
    ((colorizeText L key .key ++ ": " ++ p.1) :: q.1, q.2)
termination_by (L.maxDepth + 1 - depth, 1, entries.length)

end

/-- Fuel-indexed approximation of `V2.formatArgument`: `fuel` bounds the
number of nested `formatArgument` stack frames still allowed, and `none`
means that bound was hit. -/
def formatArgumentF (L : Logger) (h : Heap) :
    Nat → JSVal → Nat → List Nat → String → Option (String × List Nat)
  | 0, _, _, _, _ => none
  | fuel + 1, arg, depth, seen, indentation =>
    if depth > L.maxDepth then some (colorizeText L "[Max Depth Reached]" .maxDepth, seen)
    else
      match arg with
      | .vnull => some (colorizeText L "null" .null, seen)
      | .vundefined => some (colorizeText L "undefined" .undefined, seen)
      | .vstr s =>
        if s.length > L.maxStringLength then
          some (colorizeText L ("\"" ++ (s.take L.maxStringLength ++ "...") ++ "\"") .string ++
            colorizeText L (" [truncated, " ++ toString s.length ++ " chars total]")
              .truncated, seen)
        else some (colorizeText L ("\"" ++ s ++ "\"") .string, seen)
      | .vnum s => some (colorizeText L s .number, seen)
      | .vbool b => some (colorizeText L (if b then "true" else "false") .boolean, seen)
      | .vsymbol s => some (colorizeText L s .symbol, seen)
      | .vbigint s => some (colorizeText L (s ++ "n") .number, seen)
      | .vfunc name =>
        some (colorizeText L ("[Function: " ++ (if name = "" then "anonymous" else name) ++ "]")
          .function, seen)
      | .verror name message stack => some (name ++ ": " ++ message ++ "\n" ++ stack, seen)
      | .vdate iso => some (colorizeText L iso .date, seen)
      | .vregexp src => some (colorizeText L src .regexp, seen)
      | .vother s => some (s, seen)
      | .vref r =>
        match h r with
        | .elem tagName attrs childCount =>
          if L.env.isBrowser then some (formatDOMElement L tagName attrs childCount, seen)
          else
            if L.enableCircularHandling && r ∈ seen then
              some (colorizeText L "[Circular Reference]" .circular, seen)
            else
              let seen1 := if L.enableCircularHandling then r :: seen else seen
              some (colorizeText L "\x7b\x7d" .bracket, seen1)
        | .arr elems =>
          if L.enableCircularHandling && r ∈ seen then
            some (colorizeText L "[Circular Reference]" .circular, seen)
          else
            let seen1 := if L.enableCircularHandling then r :: seen else seen
            if elems.length = 0 then some (colorizeText L "[]" .bracket, seen1)
            else if !L.prettyPrint then
              match threadFmt (fun item s => formatArgumentF L h fuel item (depth + 1) s "")
                  elems seen1 with
              | none => none
              | some (strs, seen2) =>
                some (colorizeText L "[" .bracket ++ joinSep ", " strs ++
                  colorizeText L "]" .bracket, seen2)
            else
              let nextIndent := indentation ++ getIndentation L 1
              match threadFmt (fun item s => formatArgumentF L h fuel item (depth + 1) s nextIndent)
                  elems seen1 with
              | none => none
              | some (strs, seen2) =>
                some (colorizeText L "[" .bracket ++ "\n" ++
                  joinSep ",\n" (strs.map (fun s => nextIndent ++ s)) ++ "\n" ++
                  indentation ++ colorizeText L "]" .bracket, seen2)
        | .obj entries =>
          if L.enableCircularHandling && r ∈ seen then
            some (colorizeText L "[Circular Reference]" .circular, seen)
          else
            let seen1 := if L.enableCircularHandling then r :: seen else seen
            if entries.length = 0 then some (colorizeText L "\x7b\x7d" .bracket, seen1)
            else if !L.prettyPrint then
              match threadFmt (fun kv s =>
                  match formatArgumentF L h fuel kv.2 (depth + 1) s "" with
                  | none => none
                  | some p => some (colorizeText L kv.1 .key ++ ": " ++ p.1, p.2))
                  entries seen1 with
              | none => none
              | some (strs, seen2) =>
                some (colorizeText L "\x7b" .bracket ++ joinSep ", " strs ++
                  colorizeText L "\x7d" .bracket, seen2)
            else
              let nextIndent := indentation ++ getIndentation L 1
              match threadFmt (fun kv s =>
                  match formatArgumentF L h fuel kv.2 (depth + 1) s nextIndent with
                  | none => none
                  | some p => some (colorizeText L kv.1 .key ++ ": " ++ p.1, p.2))
                  entries seen1 with
              | none => none
              | some (strs, seen2) =>
                some (colorizeText L "\x7b" .bracket ++ "\n" ++
                  joinSep ",\n" (strs.map (fun s => nextIndent ++ s)) ++ "\n" ++
                  indentation ++ colorizeText L "\x7d" .bracket, seen2)
        | .objThrows message =>
          if L.enableCircularHandling && r ∈ seen then
            some (colorizeText L "[Circular Reference]" .circular, seen)
          else
            let seen1 := if L.enableCircularHandling then r :: seen else seen
            some ("[Object: failed to stringify - " ++ message ++ "]", seen1)

end V2

/-- The constructor defaults shared by both loggers: `maxDepth` 5,
`maxStringLength` 10000, circular handling on, `domElementFormat` summary,
`prettyPrint` true, `indentSize` 2, colors on; here in a Node.js development
environment. -/
def defaultLogger : Logger :=
  { maxDepth := 5
    maxStringLength := 10000
    enableCircularHandling := true
    domElementFormat := .summary
    prettyPrint := true
    indentSize := 2
    useColors := true
    env := { isDevelopment := true, isNode := true, isBrowser := false, isEdgeRuntime := false } }

/-- A heap holding an unboundedly deep array chain: reference `r` is the
one-element array holding reference `r + 1`. -/
def chainHeap : Heap := fun r => .arr [.vref (r + 1)]

/-- A heap modelling `x = {}; x.self = x`: reference 0 is the object whose
single entry `self` refers back to reference 0. -/
def selfHeap : Heap := fun _ => .obj [("self", .vref 0)]

/-- A heap where reference 0 is `{a: y, b: y}` and reference 1 is the shared
(but acyclic) empty object `y`. -/
def sharedHeap : Heap := fun r =>
  if r = 0 then .obj [("a", .vref 1), ("b", .vref 1)] else .obj []

/-- A heap where reference 0 is `{a: 1, b: [1, 2, 3]}` and reference 1 is the
array `[1, 2, 3]`. -/
def abHeap : Heap := fun r =>
  if r = 0 then .obj [("a", .vnum "1"), ("b", .vref 1)]
  else .arr [.vnum "1", .vnum "2", .vnum "3"]

/-- A heap whose object at every reference throws on enumeration with a
fixed message, modelling a host object whose `Object.entries` raises. -/
def throwHeap : Heap := fun _ => .objThrows "Cannot convert object to primitive value"

/-- A UI-capable (browser) execution context used by the element-rendering
scenarios. -/
def browserEnv : Env :=
  { isDevelopment := true, isNode := false, isBrowser := true, isEdgeRuntime := false }

/-- Removes the whitespace the formatter ever emits (spaces and newlines)
from a string, keeping everything else in order. -/
def stripWS (s : String) : String :=
  String.mk (s.data.filter (fun c => !(c = ' ' || c = '\n')))

/-- Appending the empty string on the right is the identity. -/
theorem string_append_empty (s : String) : s ++ "" = s := by
  cases s with
  | mk d =>
    show String.mk (d ++ []) = String.mk d
    rw [List.append_nil]

/-- Appending the empty string on the left is the identity. -/
theorem string_empty_append (s : String) : "" ++ s = s := rfl

/-- Whitespace stripping distributes over string append. -/
theorem stripWS_append (a b : String) : stripWS (a ++ b) = stripWS a ++ stripWS b := by
  cases a with
  | mk da =>
    cases b with
    | mk db =>
      show String.mk ((da ++ db).filter _) = String.mk (da.filter _) ++ String.mk (db.filter _)
      rw [List.filter_append]
      rfl

/-- Indentation runs are pure whitespace. -/
theorem stripWS_getIndentation (L : Logger) (d : Nat) :
    stripWS (V2.getIndentation L d) = "" := by
  have hrep : ∀ n, (List.replicate n ' ').filter (fun c => !(c = ' ' || c = '\n')) = [] := by
    intro n
    induction n with
    | zero => rfl
    | succ n ih => simp [List.replicate_succ, List.filter_cons, ih]
  show String.mk _ = ""
  rw [show (V2.getIndentation L d).data = List.replicate (d * L.indentSize) ' ' from rfl]
  rw [hrep]

/-- Pointwise equal images make two mapped lists componentwise related. -/
theorem forall₂_of_map_eq {α β γ : Type} (f : α → γ) (g : β → γ) :
    ∀ (l1 : List α) (l2 : List β), l1.map f = l2.map g →
      List.Forall₂ (fun a b => f a = g b) l1 l2 := by
  intro l1
  induction l1 with
  | nil =>
    intro l2 hmap
    cases l2 with
    | nil => exact List.Forall₂.nil
    | cons b t2 => simp at hmap
  | cons a t ih =>
    intro l2 hmap
    cases l2 with
    | nil => simp at hmap
    | cons b t2 =>
      simp at hmap
      exact List.Forall₂.cons hmap.1 (ih t2 hmap.2)

/-- Joining componentwise whitespace-equal lists with whitespace-equal
separators yields whitespace-equal strings. -/
theorem stripWS_joinSep (sep1 sep2 : String) (hsep : stripWS sep1 = stripWS sep2) :
    ∀ (l1 l2 : List String), List.Forall₂ (fun a b => stripWS a = stripWS b) l1 l2 →
      stripWS (joinSep sep1 l1) = stripWS (joinSep sep2 l2) := by
  intro l1 l2 hf
  induction hf with
  | nil => rfl
  | cons hab hrest ih =>
    rename_i a b t1 t2
    cases hrest with
    | nil => simpa [joinSep] using hab
    | cons hcd htail =>
      simp only [joinSep]
      rw [stripWS_append, stripWS_append, stripWS_append, stripWS_append, hab, hsep, ih]

namespace V1

/-- When the step function agrees with `formatArgument` at the next depth,
threading it over a list agrees with `fmtItems`. -/
theorem threadFmt_fmtItems (L : Logger) (h : Heap) (depth : Nat)
    (g : JSVal → List Nat → Option (String × List Nat))
    (H : ∀ v s, g v s = some (formatArgument L h v depth s)) :
    ∀ items seen, threadFmt g items seen = some (fmtItems L h items depth seen) := by
  intro items
  induction items with
  | nil => intro seen; simp [threadFmt, fmtItems]
  | cons x xs ih => intro seen; simp [threadFmt, fmtItems, H, ih]

/-- When the keyed step function renders an entry via `formatArgument` at
the next depth, threading it over an entry list agrees with `fmtEntries`. -/
theorem threadFmt_fmtEntries (L : Logger) (h : Heap) (depth : Nat)
    (g : String × JSVal → List Nat → Option (String × List Nat))
    (H : ∀ kv s, g kv s =
      some (kv.1 ++ ": " ++ (formatArgument L h kv.2 depth s).1,
        (formatArgument L h kv.2 depth s).2)) :
    ∀ entries seen,
      threadFmt g entries seen = some (fmtEntries L h entries depth seen) := by
  intro entries
  induction entries with
  | nil => intro seen; simp [threadFmt, fmtEntries]
  | cons kv rest ih =>
    intro seen
    obtain ⟨key, value⟩ := kv
    simp [threadFmt, fmtEntries, H, ih]

/-- The fuel-indexed formatter agrees with the real one as soon as the fuel
covers the remaining depth budget `maxDepth + 2 - depth`: the recursion of
`formatArgument` never nests more than `maxDepth + 2` frames. -/
theorem formatArgumentF_eq_formatArgument (L : Logger) (h : Heap) :
    ∀ fuel arg depth seen, 0 < fuel → L.maxDepth + 2 ≤ fuel + depth →
      formatArgumentF L h fuel arg depth seen =
        some (formatArgument L h arg depth seen) := by
  intro fuel
  induction fuel with
  | zero => intro arg depth seen h1 _; exact absurd h1 (by omega)
  | succ fuel ih =>
    intro arg depth seen _ h2
    rw [formatArgument.eq_def]
    simp only [formatArgumentF]
    by_cases hd : depth > L.maxDepth
    · simp [hd]
    · have hfuel : 0 < fuel := by omega
      have ihd : ∀ v s, formatArgumentF L h fuel v (depth + 1) s =
          some (formatArgument L h v (depth + 1) s) := by
        intro v s
        by_cases hdeep : depth + 1 > L.maxDepth
        · obtain ⟨fuel', rfl⟩ : ∃ f, fuel = f + 1 := ⟨fuel - 1, by omega⟩
          rw [formatArgument.eq_def]
          simp [formatArgumentF, hdeep]
        · exact ih v (depth + 1) s hfuel (by omega)
      have hGe : ∀ kv : String × JSVal, ∀ s,
          (match formatArgumentF L h fuel kv.2 (depth + 1) s with
            | none => none
            | some p => some (kv.1 ++ ": " ++ p.1, p.2)) =
          some (kv.1 ++ ": " ++ (formatArgument L h kv.2 (depth + 1) s).1,
            (formatArgument L h kv.2 (depth + 1) s).2) := by
        intro kv s
        rw [ihd]
      have harr := threadFmt_fmtItems L h (depth + 1)
        (fun item s => formatArgumentF L h fuel item (depth + 1) s) ihd
      have hobj := threadFmt_fmtEntries L h (depth + 1)
        (fun kv s =>
          match formatArgumentF L h fuel kv.2 (depth + 1) s with
          | none => none
          | some p => some (kv.1 ++ ": " ++ p.1, p.2)) hGe
      simp only [if_neg hd]
      cases arg with
      | vref r =>
        cases hr : h r with
        | arr elems =>
          simp only [hr, harr]
          split <;> rfl
        | obj entries =>
          simp only [hr, hobj]
          split <;> rfl
        | objThrows message =>
          simp only [hr]
          split <;> rfl
        | elem tagName attrs childCount =>
          simp only [hr]
          split
          · rfl
          · split <;> rfl
      | vstr s =>
        dsimp only
        split <;> rfl
      | _ => rfl

/-- Threading a step function that only extends the seen set yields a final
seen set extending the initial one. -/
theorem threadFmt_seen_suffix {α : Type}
    (g : α → List Nat → Option (String × List Nat))
    (Hg : ∀ a s out, g a s = some out → ∃ l, out.2 = l ++ s) :
    ∀ items seen out, threadFmt g items seen = some out →
      ∃ l, out.2 = l ++ seen := by
  intro items
  induction items with
  | nil =>
    intro seen out hth
    simp only [threadFmt] at hth
    cases hth
    exact ⟨[], rfl⟩
  | cons a rest ih =>
    intro seen out hth
    simp only [threadFmt] at hth
    split at hth
    · cases hth
    · rename_i s1 seen1 hga
      split at hth
      · cases hth
      · rename_i ss seen2 hrest
        cases hth
        obtain ⟨l1, hl1⟩ := Hg a seen _ hga
        obtain ⟨l2, hl2⟩ := ih seen1 _ hrest
        refine ⟨l2 ++ l1, ?_⟩
        simp only at hl1 hl2
        simp [hl1] at hl2
        simp [hl2]

/-- Entries are only ever added to the seen set: whatever the fuel-indexed
formatter returns, the final seen set is the initial one with zero or more
references pushed on top. -/
theorem formatArgumentF_seen_suffix (L : Logger) (h : Heap) :
    ∀ fuel arg depth seen out,
      formatArgumentF L h fuel arg depth seen = some out →
      ∃ l, out.2 = l ++ seen := by
  intro fuel
  induction fuel with
  | zero => intro arg depth seen out hout; simp [formatArgumentF] at hout
  | succ fuel ih =>
    intro arg depth seen out hout
    simp only [formatArgumentF] at hout
    split at hout
    · cases hout; exact ⟨[], rfl⟩
    · have Hg : ∀ kv : String × JSVal, ∀ s out,
          (match formatArgumentF L h fuel kv.2 (depth + 1) s with
            | none => none
            | some p => some (kv.1 ++ ": " ++ p.1, p.2)) = some out →
          ∃ l, out.2 = l ++ s := by
        intro kv s out hkv
        cases hk : formatArgumentF L h fuel kv.2 (depth + 1) s with
        | none => rw [hk] at hkv; cases hkv
        | some p =>
          rw [hk] at hkv
          cases hkv
          exact ih kv.2 (depth + 1) s p hk
      cases arg with
      | vref r =>
        dsimp only at hout
        cases hr : h r with
        | arr elems =>
          rw [hr] at hout
          dsimp only at hout
          split at hout
          · cases hout; exact ⟨[], rfl⟩
          · split at hout
            · cases hout
            · rename_i strs seen2 ht
              cases hout
              obtain ⟨l2, hl2⟩ := threadFmt_seen_suffix _
                (fun a s out hh => ih a (depth + 1) s out hh) elems _ _ ht
              simp only at hl2
              refine ⟨l2 ++ (if L.enableCircularHandling then [r] else []), ?_⟩
              by_cases hc : L.enableCircularHandling <;> simp [hc] at hl2 ⊢ <;> simp [hl2]
        | obj entries =>
          rw [hr] at hout
          dsimp only at hout
          split at hout
          · cases hout; exact ⟨[], rfl⟩
          · split at hout
            · cases hout
            · rename_i strs seen2 ht
              cases hout
              obtain ⟨l2, hl2⟩ := threadFmt_seen_suffix _ Hg entries _ _ ht
              simp only at hl2
              refine ⟨l2 ++ (if L.enableCircularHandling then [r] else []), ?_⟩
              by_cases hc : L.enableCircularHandling <;> simp [hc] at hl2 ⊢ <;> simp [hl2]
        | objThrows message =>
          rw [hr] at hout
          dsimp only at hout
          split at hout
          · cases hout; exact ⟨[], rfl⟩
          · cases hout
            refine ⟨if L.enableCircularHandling then [r] else [], ?_⟩
            by_cases hc : L.enableCircularHandling <;> simp [hc]
        | elem tagName attrs childCount =>
          rw [hr] at hout
          dsimp only at hout
          split at hout
          · cases hout; exact ⟨[], rfl⟩
          · split at hout
            · cases hout; exact ⟨[], rfl⟩
            · cases hout
              refine ⟨if L.enableCircularHandling then [r] else [], ?_⟩
              by_cases hc : L.enableCircularHandling <;> simp [hc]
      | vstr s =>
        dsimp only at hout
        split at hout <;> (cases hout; exact ⟨[], rfl⟩)
      | _ =>
        dsimp only at hout
        cases hout
        exact ⟨[], rfl⟩

/-- Entries are only ever added to the `seen` set by `V1.formatArgument`:
the final seen set is the initial one with zero or more references pushed on
top, so nothing is ever removed within a call. -/
theorem formatArgument_seen_suffix (L : Logger) (h : Heap)
    (arg : JSVal) (depth : Nat) (seen : List Nat) :
    ∃ l, (formatArgument L h arg depth seen).2 = l ++ seen := by
  have hb := formatArgumentF_eq_formatArgument L h (L.maxDepth + 2) arg depth seen
    (by omega) (by omega)
  exact formatArgumentF_seen_suffix L h (L.maxDepth + 2) arg depth seen _ hb

/-- Threading two step functions that agree on rendered strings — the first
registering exactly its reference trace, the second leaving the seen set
alone — produces the same rendered strings, and the first thread's final
seen set is characterized by the concatenated traces. -/
theorem threadFmt_circ {α : Type} (rfs : α → List Nat)
    (g1 g2 : α → List Nat → Option (String × List Nat))
    (Hpt : ∀ a seenA seenB, (rfs a).Nodup → (∀ x ∈ rfs a, x ∉ seenA) →
      Option.map Prod.fst (g1 a seenA) = Option.map Prod.fst (g2 a seenB) ∧
      (∀ out, g1 a seenA = some out →
        ∀ x, x ∈ out.2 ↔ (x ∈ rfs a ∨ x ∈ seenA))) :
    ∀ items seenA seenB, ((items.map rfs).flatten).Nodup →
      (∀ x ∈ (items.map rfs).flatten, x ∉ seenA) →
      Option.map Prod.fst (threadFmt g1 items seenA) =
        Option.map Prod.fst (threadFmt g2 items seenB) ∧
      (∀ out, threadFmt g1 items seenA = some out →
        ∀ x, x ∈ out.2 ↔ (x ∈ (items.map rfs).flatten ∨ x ∈ seenA)) := by
  intro items
  induction items with
  | nil =>
    intro seenA seenB _ _
    constructor
    · rfl
    · intro out hout x
      simp only [threadFmt] at hout
      cases hout
      simp
  | cons a rest ih =>
    intro seenA seenB hnodup hdisj
    have hsplit : (((a :: rest).map rfs).flatten) = rfs a ++ ((rest.map rfs).flatten) := by
      simp
    rw [hsplit] at hnodup hdisj
    have hanodup : (rfs a).Nodup := (List.nodup_append.mp hnodup).1
    have hrnodup : ((rest.map rfs).flatten).Nodup := (List.nodup_append.mp hnodup).2.1
    have hdisj2 : ∀ x ∈ rfs a, x ∉ (rest.map rfs).flatten :=
      fun x hx => (List.nodup_append.mp hnodup).2.2 hx
    have haseen : ∀ x ∈ rfs a, x ∉ seenA := fun x hx => hdisj x (by simp [hx])
    have hrseen : ∀ x ∈ (rest.map rfs).flatten, x ∉ seenA :=
      fun x hx => hdisj x (by simp [hx])
    obtain ⟨h1pt, h3pt⟩ := Hpt a seenA seenB hanodup haseen
    simp only [threadFmt]
    cases hga1 : g1 a seenA with
    | none =>
      rw [hga1] at h1pt
      cases hga2 : g2 a seenB with
      | some p2 => rw [hga2] at h1pt; simp at h1pt
      | none =>
        constructor
        · rfl
        · intro out hout; cases hout
    | some p1 =>
      rw [hga1] at h1pt
      cases hga2 : g2 a seenB with
      | none => rw [hga2] at h1pt; simp at h1pt
      | some p2 =>
        rw [hga2] at h1pt
        simp only [Option.map_some'] at h1pt
        have hfst : p1.1 = p2.1 := by simpa using h1pt
        have hmemp1 : ∀ x, x ∈ p1.2 ↔ (x ∈ rfs a ∨ x ∈ seenA) := h3pt p1 hga1
        have hrseen1 : ∀ x ∈ (rest.map rfs).flatten, x ∉ p1.2 := by
          intro x hx hmem
          rcases (hmemp1 x).mp hmem with hra | hsa
          · exact hdisj2 x hra hx
          · exact hrseen x hx hsa
        obtain ⟨ih1, ih3⟩ := ih p1.2 p2.2 hrnodup hrseen1
        obtain ⟨q1, hq1⟩ := p1
        obtain ⟨q2, hq2⟩ := p2
        dsimp only
        constructor
        · cases ht1 : threadFmt g1 rest hq1 with
          | none =>
            rw [ht1] at ih1
            cases ht2 : threadFmt g2 rest hq2 with
            | some w => rw [ht2] at ih1; simp at ih1
            | none => rfl
          | some w1 =>
            rw [ht1] at ih1
            cases ht2 : threadFmt g2 rest hq2 with
            | none => rw [ht2] at ih1; simp at ih1
            | some w2 =>
              rw [ht2] at ih1
              simp only [Option.map_some'] at ih1 ⊢
              obtain ⟨ws1, wseen1⟩ := w1
              obtain ⟨ws2, wseen2⟩ := w2
              simp at ih1 hfst ⊢
              simp [hfst, ih1]
        · intro out hout x
          cases ht1 : threadFmt g1 rest hq1 with
          | none => rw [ht1] at hout; cases hout
          | some w1 =>
            rw [ht1] at hout
            obtain ⟨ws1, wseen1⟩ := w1
            cases hout
            have hthis := ih3 (ws1, wseen1) ht1 x
            dsimp only at hthis ⊢
            rw [hsplit, List.mem_append, hthis, hmemp1 x]
            tauto

/-- Branch shape of the fuel-indexed basic formatter on a fresh array with
circular handling on. -/
theorem formatArgumentF_succ_arr (L : Logger) (h : Heap) (fuel depth r : Nat)
    (elems : List JSVal) (seen : List Nat) (hd : ¬ depth > L.maxDepth)
    (hr : h r = .arr elems) (hc : L.enableCircularHandling = true)
    (hnew : r ∉ seen) :
    formatArgumentF L h (fuel + 1) (.vref r) depth seen =
      match threadFmt (fun item s => formatArgumentF L h fuel item (depth + 1) s)
          elems (r :: seen) with
      | none => none
      | some (strs, seen2) => some ("[" ++ joinSep ", " strs ++ "]", seen2) := by
  simp [formatArgumentF, hr, hd, hc, hnew]

/-- Branch shape of the fuel-indexed basic formatter on an array with
circular handling off. -/
theorem formatArgumentF_succ_arr_off (L : Logger) (h : Heap) (fuel depth r : Nat)
    (elems : List JSVal) (seen : List Nat) (hd : ¬ depth > L.maxDepth)
    (hr : h r = .arr elems) (hc : L.enableCircularHandling = false) :
    formatArgumentF L h (fuel + 1) (.vref r) depth seen =
      match threadFmt (fun item s => formatArgumentF L h fuel item (depth + 1) s)
          elems seen with
      | none => none
      | some (strs, seen2) => some ("[" ++ joinSep ", " strs ++ "]", seen2) := by
  simp [formatArgumentF, hr, hd, hc]

/-- Branch shape of the fuel-indexed basic formatter on a fresh object with
circular handling on. -/
theorem formatArgumentF_succ_obj (L : Logger) (h : Heap) (fuel depth r : Nat)
    (entries : List (String × JSVal)) (seen : List Nat) (hd : ¬ depth > L.maxDepth)
    (hr : h r = .obj entries) (hc : L.enableCircularHandling = true)
    (hnew : r ∉ seen) :
    formatArgumentF L h (fuel + 1) (.vref r) depth seen =
      match threadFmt (fun kv s =>
          match formatArgumentF L h fuel kv.2 (depth + 1) s with
          | none => none
          | some p => some (kv.1 ++ ": " ++ p.1, p.2)) entries (r :: seen) with
      | none => none
      | some (strs, seen2) => some ("\x7b" ++ joinSep ", " strs ++ "\x7d", seen2) := by
  simp [formatArgumentF, hr, hd, hc, hnew]

/-- Branch shape of the fuel-indexed basic formatter on an object with
circular handling off. -/
theorem formatArgumentF_succ_obj_off (L : Logger) (h : Heap) (fuel depth r : Nat)
    (entries : List (String × JSVal)) (seen : List Nat) (hd : ¬ depth > L.maxDepth)
    (hr : h r = .obj entries) (hc : L.enableCircularHandling = false) :
    formatArgumentF L h (fuel + 1) (.vref r) depth seen =
      match threadFmt (fun kv s =>
          match formatArgumentF L h fuel kv.2 (depth + 1) s with
          | none => none
          | some p => some (kv.1 ++ ": " ++ p.1, p.2)) entries seen with
      | none => none
      | some (strs, seen2) => some ("\x7b" ++ joinSep ", " strs ++ "\x7d", seen2) := by
  simp [formatArgumentF, hr, hd, hc]

/-- Branch shape of the fuel-indexed basic formatter on a fresh throwing
object with circular handling on. -/
theorem formatArgumentF_succ_objThrows (L : Logger) (h : Heap) (fuel depth r : Nat)
    (message : String) (seen : List Nat) (hd : ¬ depth > L.maxDepth)
    (hr : h r = .objThrows message) (hc : L.enableCircularHandling = true)
    (hnew : r ∉ seen) :
    formatArgumentF L h (fuel + 1) (.vref r) depth seen =
      some ("[Object: failed to stringify - " ++ message ++ "]", r :: seen) := by
  simp [formatArgumentF, hr, hd, hc, hnew]

/-- Branch shape of the fuel-indexed basic formatter on a throwing object
with circular handling off. -/
theorem formatArgumentF_succ_objThrows_off (L : Logger) (h : Heap) (fuel depth r : Nat)
    (message : String) (seen : List Nat) (hd : ¬ depth > L.maxDepth)
    (hr : h r = .objThrows message) (hc : L.enableCircularHandling = false) :
    formatArgumentF L h (fuel + 1) (.vref r) depth seen =
      some ("[Object: failed to stringify - " ++ message ++ "]", seen) := by
  simp [formatArgumentF, hr, hd, hc]

/-- Branch shape of the fuel-indexed basic formatter on a host element in a
browser context. -/
theorem formatArgumentF_succ_elem_browser (L : Logger) (h : Heap) (fuel depth r : Nat)
    (tagName : String) (attrs : List Attr) (childCount : Nat) (seen : List Nat)
    (hd : ¬ depth > L.maxDepth) (hr : h r = .elem tagName attrs childCount)
    (hb : L.env.isBrowser = true) :
    formatArgumentF L h (fuel + 1) (.vref r) depth seen =
      some (formatDOMElement L tagName attrs childCount, seen) := by
  simp [formatArgumentF, hr, hd, hb]

/-- Branch shape of the fuel-indexed basic formatter on a fresh host element
outside a browser context with circular handling on. -/
theorem formatArgumentF_succ_elem_nb (L : Logger) (h : Heap) (fuel depth r : Nat)
    (tagName : String) (attrs : List Attr) (childCount : Nat) (seen : List Nat)
    (hd : ¬ depth > L.maxDepth) (hr : h r = .elem tagName attrs childCount)
    (hb : L.env.isBrowser = false) (hc : L.enableCircularHandling = true)
    (hnew : r ∉ seen) :
    formatArgumentF L h (fuel + 1) (.vref r) depth seen =
      some ("\x7b" ++ joinSep ", " [] ++ "\x7d", r :: seen) := by
  simp [formatArgumentF, hr, hd, hb, hc, hnew]

/-- Branch shape of the fuel-indexed basic formatter on a host element
outside a browser context with circular handling off. -/
theorem formatArgumentF_succ_elem_nb_off (L : Logger) (h : Heap) (fuel depth r : Nat)
    (tagName : String) (attrs : List Attr) (childCount : Nat) (seen : List Nat)
    (hd : ¬ depth > L.maxDepth) (hr : h r = .elem tagName attrs childCount)
    (hb : L.env.isBrowser = false) (hc : L.enableCircularHandling = false) :
    formatArgumentF L h (fuel + 1) (.vref r) depth seen =
      some ("\x7b" ++ joinSep ", " [] ++ "\x7d", seen) := by
  simp [formatArgumentF, hr, hd, hb, hc]

/-- Core of the circular-flag independence: when the reference trace of the
input is duplicate-free and misses the toggled run's seen set, the
fuel-indexed formatter renders the same string with circular handling
enabled as with it disabled (from any seen set), and the enabled run's
final seen set is exactly the trace on top of the initial set. -/
theorem formatArgumentF_circ_flag (L : Logger) (h : Heap) :
    ∀ fuel arg depth seenA seenB,
      (refsF L h fuel arg depth).Nodup →
      (∀ x ∈ refsF L h fuel arg depth, x ∉ seenA) →
      Option.map Prod.fst
          (formatArgumentF { L with enableCircularHandling := true } h fuel arg depth seenA) =
        Option.map Prod.fst
          (formatArgumentF { L with enableCircularHandling := false } h fuel arg depth seenB) ∧
      (∀ out,
        formatArgumentF { L with enableCircularHandling := true } h fuel arg depth seenA
          = some out →
        ∀ x, x ∈ out.2 ↔ (x ∈ refsF L h fuel arg depth ∨ x ∈ seenA)) := by
  intro fuel
  induction fuel with
  | zero =>
    intro arg depth seenA seenB _ _
    constructor
    · rfl
    · intro out hout
      simp [formatArgumentF] at hout
  | succ fuel ih =>
    intro arg depth seenA seenB hnodup hdisj
    by_cases hd : depth > L.maxDepth
    · have hrefs : refsF L h (fuel + 1) arg depth = [] := by simp [refsF, hd]
      constructor
      · simp only [formatArgumentF]
        rw [if_pos hd, if_pos hd]
        rfl
      · intro out hout
        simp only [formatArgumentF] at hout
        rw [if_pos hd] at hout
        cases hout
        rw [hrefs]
        simp
    · cases arg with
      | vref r =>
        cases hr : h r with
        | arr elems =>
          have hrefs : refsF L h (fuel + 1) (.vref r) depth =
              r :: (elems.map (fun item => refsF L h fuel item (depth + 1))).flatten := by
            simp [refsF, hd, hr]
          rw [hrefs] at hnodup hdisj
          have hrA : r ∉ seenA := hdisj r (by simp)
          have hfnodup : ((elems.map (fun item => refsF L h fuel item (depth + 1))).flatten).Nodup :=
            (List.nodup_cons.mp hnodup).2
          have hrflat : r ∉ (elems.map (fun item => refsF L h fuel item (depth + 1))).flatten :=
            (List.nodup_cons.mp hnodup).1
          have hfdisj : ∀ x ∈ (elems.map (fun item => refsF L h fuel item (depth + 1))).flatten,
              x ∉ r :: seenA := by
            intro x hx
            simp only [List.mem_cons, not_or]
            exact ⟨fun hxr => hrflat (hxr ▸ hx), hdisj x (by simp [hx])⟩
          obtain ⟨ht1, ht3⟩ := threadFmt_circ
            (fun item => refsF L h fuel item (depth + 1))
            (fun item s => formatArgumentF { L with enableCircularHandling := true } h fuel item (depth + 1) s)
            (fun item s => formatArgumentF { L with enableCircularHandling := false } h fuel item (depth + 1) s)
            (fun a sA sB hn hdj => ih a (depth + 1) sA sB hn hdj)
            elems (r :: seenA) seenB hfnodup hfdisj
          rw [formatArgumentF_succ_arr { L with enableCircularHandling := true } h fuel depth r elems seenA hd hr rfl hrA,
            formatArgumentF_succ_arr_off { L with enableCircularHandling := false } h fuel depth r elems seenB hd hr rfl]
          constructor
          · cases t1 : threadFmt (fun item s =>
                formatArgumentF { L with enableCircularHandling := true } h fuel item (depth + 1) s)
                elems (r :: seenA) with
            | none =>
              rw [t1] at ht1
              cases t2 : threadFmt (fun item s =>
                  formatArgumentF { L with enableCircularHandling := false } h fuel item (depth + 1) s)
                  elems seenB with
              | some w => rw [t2] at ht1; simp at ht1
              | none => rfl
            | some w1 =>
              rw [t1] at ht1
              cases t2 : threadFmt (fun item s =>
                  formatArgumentF { L with enableCircularHandling := false } h fuel item (depth + 1) s)
                  elems seenB with
              | none => rw [t2] at ht1; simp at ht1
              | some w2 =>
                rw [t2] at ht1
                obtain ⟨ws1, wseen1⟩ := w1
                obtain ⟨ws2, wseen2⟩ := w2
                simp at ht1
                simp [ht1]
          · intro out hout x
            cases t1 : threadFmt (fun item s =>
                formatArgumentF { L with enableCircularHandling := true } h fuel item (depth + 1) s)
                elems (r :: seenA) with
            | none => rw [t1] at hout; cases hout
            | some w1 =>
              rw [t1] at hout
              obtain ⟨ws1, wseen1⟩ := w1
              cases hout
              have hm := ht3 (ws1, wseen1) t1 x
              dsimp only at hm ⊢
              rw [hrefs, hm]
              simp only [List.mem_cons]
              tauto
        | obj entries =>
          have hrefs : refsF L h (fuel + 1) (.vref r) depth =
              r :: (entries.map (fun kv => refsF L h fuel kv.2 (depth + 1))).flatten := by
            simp [refsF, hd, hr]
          rw [hrefs] at hnodup hdisj
          have hrA : r ∉ seenA := hdisj r (by simp)
          have hfnodup : ((entries.map (fun kv => refsF L h fuel kv.2 (depth + 1))).flatten).Nodup :=
            (List.nodup_cons.mp hnodup).2
          have hrflat : r ∉ (entries.map (fun kv => refsF L h fuel kv.2 (depth + 1))).flatten :=
            (List.nodup_cons.mp hnodup).1
          have hfdisj : ∀ x ∈ (entries.map (fun kv => refsF L h fuel kv.2 (depth + 1))).flatten,
              x ∉ r :: seenA := by
            intro x hx
            simp only [List.mem_cons, not_or]
            exact ⟨fun hxr => hrflat (hxr ▸ hx), hdisj x (by simp [hx])⟩
          have HptE : ∀ (kv : String × JSVal) (sA sB : List Nat),
              (refsF L h fuel kv.2 (depth + 1)).Nodup →
              (∀ x ∈ refsF L h fuel kv.2 (depth + 1), x ∉ sA) →
              Option.map Prod.fst
                  ((fun kv (s : List Nat) =>
                    match formatArgumentF { L with enableCircularHandling := true } h fuel kv.2 (depth + 1) s with
                    | none => none
                    | some p => some (kv.1 ++ ": " ++ p.1, p.2)) kv sA) =
                Option.map Prod.fst
                  ((fun kv (s : List Nat) =>
                    match formatArgumentF { L with enableCircularHandling := false } h fuel kv.2 (depth + 1) s with
                    | none => none
                    | some p => some (kv.1 ++ ": " ++ p.1, p.2)) kv sB) ∧
              (∀ out,
                (fun kv (s : List Nat) =>
                    match formatArgumentF { L with enableCircularHandling := true } h fuel kv.2 (depth + 1) s with
                    | none => none
                    | some p => some (kv.1 ++ ": " ++ p.1, p.2)) kv sA = some out →
                ∀ x, x ∈ out.2 ↔ (x ∈ refsF L h fuel kv.2 (depth + 1) ∨ x ∈ sA)) := by
            intro kv sA sB hn hdj
            obtain ⟨e1, e3⟩ := ih kv.2 (depth + 1) sA sB hn hdj
            constructor
            · dsimp only
              cases u1 : formatArgumentF { L with enableCircularHandling := true } h fuel kv.2 (depth + 1) sA with
              | none =>
                rw [u1] at e1
                cases u2 : formatArgumentF { L with enableCircularHandling := false } h fuel kv.2 (depth + 1) sB with
                | some p => rw [u2] at e1; simp at e1
                | none => rfl
              | some p1 =>
                rw [u1] at e1
                cases u2 : formatArgumentF { L with enableCircularHandling := false } h fuel kv.2 (depth + 1) sB with
                | none => rw [u2] at e1; simp at e1
                | some p2 =>
                  rw [u2] at e1
                  simp at e1
                  simp [e1]
            · dsimp only
              intro out hout x
              cases u1 : formatArgumentF { L with enableCircularHandling := true } h fuel kv.2 (depth + 1) sA with
              | none => rw [u1] at hout; cases hout
              | some p1 =>
                rw [u1] at hout
                cases hout
                exact e3 p1 u1 x
          obtain ⟨ht1, ht3⟩ := threadFmt_circ
            (fun kv => refsF L h fuel kv.2 (depth + 1))
            (fun kv s =>
              match formatArgumentF { L with enableCircularHandling := true } h fuel kv.2 (depth + 1) s with
              | none => none
              | some p => some (kv.1 ++ ": " ++ p.1, p.2))
            (fun kv s =>
              match formatArgumentF { L with enableCircularHandling := false } h fuel kv.2 (depth + 1) s with
              | none => none
              | some p => some (kv.1 ++ ": " ++ p.1, p.2))
            HptE entries (r :: seenA) seenB hfnodup hfdisj
          rw [formatArgumentF_succ_obj { L with enableCircularHandling := true } h fuel depth r entries seenA hd hr rfl hrA,
            formatArgumentF_succ_obj_off { L with enableCircularHandling := false } h fuel depth r entries seenB hd hr rfl]
          constructor
          · cases t1 : threadFmt (fun kv s =>
                match formatArgumentF { L with enableCircularHandling := true } h fuel kv.2 (depth + 1) s with
                | none => none
                | some p => some (kv.1 ++ ": " ++ p.1, p.2))
                entries (r :: seenA) with
            | none =>
              rw [t1] at ht1
              cases t2 : threadFmt (fun kv s =>
                  match formatArgumentF { L with enableCircularHandling := false } h fuel kv.2 (depth + 1) s with
                  | none => none
                  | some p => some (kv.1 ++ ": " ++ p.1, p.2))
                  entries seenB with
              | some w => rw [t2] at ht1; simp at ht1
              | none => rfl
            | some w1 =>
              rw [t1] at ht1
              cases t2 : threadFmt (fun kv s =>
                  match formatArgumentF { L with enableCircularHandling := false } h fuel kv.2 (depth + 1) s with
                  | none => none
                  | some p => some (kv.1 ++ ": " ++ p.1, p.2))
                  entries seenB with
              | none => rw [t2] at ht1; simp at ht1
              | some w2 =>
                rw [t2] at ht1
                obtain ⟨ws1, wseen1⟩ := w1
                obtain ⟨ws2, wseen2⟩ := w2
                simp at ht1
                simp [ht1]
          · intro out hout x
            cases t1 : threadFmt (fun kv s =>
                match formatArgumentF { L with enableCircularHandling := true } h fuel kv.2 (depth + 1) s with
                | none => none
                | some p => some (kv.1 ++ ": " ++ p.1, p.2))
                entries (r :: seenA) with
            | none => rw [t1] at hout; cases hout
            | some w1 =>
              rw [t1] at hout
              obtain ⟨ws1, wseen1⟩ := w1
              cases hout
              have hm := ht3 (ws1, wseen1) t1 x
              dsimp only at hm ⊢
              rw [hrefs, hm]
              simp only [List.mem_cons]
              tauto
        | objThrows message =>
          have hrefs : refsF L h (fuel + 1) (.vref r) depth = [r] := by
            simp [refsF, hd, hr]
          rw [hrefs] at hnodup hdisj
          have hrA : r ∉ seenA := hdisj r (by simp)
          rw [formatArgumentF_succ_objThrows { L with enableCircularHandling := true } h fuel depth r message seenA hd hr rfl hrA,
            formatArgumentF_succ_objThrows_off { L with enableCircularHandling := false } h fuel depth r message seenB hd hr rfl]
          constructor
          · rfl
          · intro out hout x
            cases hout
            rw [hrefs]
            simp
        | elem tagName attrs childCount =>
          by_cases hb : L.env.isBrowser
          · have hrefs : refsF L h (fuel + 1) (.vref r) depth = [] := by
              simp [refsF, hd, hr, hb]
            rw [formatArgumentF_succ_elem_browser { L with enableCircularHandling := true } h fuel depth r tagName attrs childCount seenA hd hr hb,
              formatArgumentF_succ_elem_browser { L with enableCircularHandling := false } h fuel depth r tagName attrs childCount seenB hd hr hb]
            constructor
            · rfl
            · intro out hout x
              cases hout
              rw [hrefs]
              simp
          · have hb' : L.env.isBrowser = false := by simpa using hb
            have hrefs : refsF L h (fuel + 1) (.vref r) depth = [r] := by
              simp [refsF, hd, hr, hb']
            rw [hrefs] at hnodup hdisj
            have hrA : r ∉ seenA := hdisj r (by simp)
            rw [formatArgumentF_succ_elem_nb { L with enableCircularHandling := true } h fuel depth r tagName attrs childCount seenA hd hr hb' rfl hrA,
              formatArgumentF_succ_elem_nb_off { L with enableCircularHandling := false } h fuel depth r tagName attrs childCount seenB hd hr hb' rfl]
            constructor
            · rfl
            · intro out hout x
              cases hout
              rw [hrefs]
              simp
      | vstr s =>
        have hrefs : refsF L h (fuel + 1) (.vstr s) depth = [] := by
          simp [refsF, hd]
        constructor
        · simp only [formatArgumentF]
          rw [if_neg hd, if_neg hd]
          split <;> rfl
        · intro out hout x
          simp only [formatArgumentF] at hout
          rw [if_neg hd] at hout
          split at hout <;> (cases hout; rw [hrefs]; simp)
      | _ =>
        constructor
        · simp only [formatArgumentF]
          rw [if_neg hd, if_neg hd]
          rfl
        · intro out hout x
          simp only [formatArgumentF] at hout
          rw [if_neg hd] at hout
          cases hout
          simp [refsF, hd]

end V1

namespace V2

/-- When the step function agrees with `V2.formatArgument` at the next depth
and child indentation, threading it over a list agrees with `V2.fmtItems`. -/
theorem threadFmt_fmtItems2 (L : Logger) (h : Heap) (depth : Nat) (ind : String)
    (g : JSVal → List Nat → Option (String × List Nat))
    (H : ∀ v s, g v s = some (formatArgument L h v depth s ind)) :
    ∀ items seen, threadFmt g items seen = some (fmtItems L h items depth seen ind) := by
  intro items
  induction items with
  | nil => intro seen; simp [threadFmt, fmtItems]
  | cons x xs ih => intro seen; simp [threadFmt, fmtItems, H, ih]

/-- When the keyed step function renders an entry via `V2.formatArgument`
at the next depth and child indentation, threading it over an entry list
agrees with `V2.fmtEntries`. -/
theorem threadFmt_fmtEntries2 (L : Logger) (h : Heap) (depth : Nat) (ind : String)
    (g : String × JSVal → List Nat → Option (String × List Nat))
    (H : ∀ kv s, g kv s =
      some (colorizeText L kv.1 .key ++ ": " ++ (formatArgument L h kv.2 depth s ind).1,
        (formatArgument L h kv.2 depth s ind).2)) :
    ∀ entries seen,
      threadFmt g entries seen = some (fmtEntries L h entries depth seen ind) := by
  intro entries
  induction entries with
  | nil => intro seen; simp [threadFmt, fmtEntries]
  | cons kv rest ih =>
    intro seen
    obtain ⟨key, value⟩ := kv
    simp [threadFmt, fmtEntries, H, ih]

/-- The fuel-indexed extended formatter agrees with the real one as soon as
the fuel covers the remaining depth budget `maxDepth + 2 - depth`: the
recursion of `V2.formatArgument` never nests more than `maxDepth + 2`
frames. -/
theorem formatArgumentF_eq_formatArgument2 (L : Logger) (h : Heap) :
    ∀ fuel arg depth seen indentation, 0 < fuel → L.maxDepth + 2 ≤ fuel + depth →
      formatArgumentF L h fuel arg depth seen indentation =
        some (formatArgument L h arg depth seen indentation) := by
  intro fuel
  induction fuel with
  | zero => intro arg depth seen indentation h1 _; exact absurd h1 (by omega)
  | succ fuel ih =>
    intro arg depth seen indentation _ h2
    rw [formatArgument.eq_def]
    simp only [formatArgumentF]
    by_cases hd : depth > L.maxDepth
    · simp [hd]
    · have hfuel : 0 < fuel := by omega
      have ihd : ∀ ind : String, ∀ v s, formatArgumentF L h fuel v (depth + 1) s ind =
          some (formatArgument L h v (depth + 1) s ind) := by
        intro ind v s
        by_cases hdeep : depth + 1 > L.maxDepth
        · obtain ⟨fuel', rfl⟩ : ∃ f, fuel = f + 1 := ⟨fuel - 1, by omega⟩
          rw [formatArgument.eq_def]
          simp [formatArgumentF, hdeep]
        · exact ih v (depth + 1) s ind hfuel (by omega)
      have hGe : ∀ ind : String, ∀ kv : String × JSVal, ∀ s,
          (match formatArgumentF L h fuel kv.2 (depth + 1) s ind with
            | none => none
            | some p => some (colorizeText L kv.1 .key ++ ": " ++ p.1, p.2)) =
          some (colorizeText L kv.1 .key ++ ": " ++
              (formatArgument L h kv.2 (depth + 1) s ind).1,
            (formatArgument L h kv.2 (depth + 1) s ind).2) := by
        intro ind kv s
        rw [ihd]
      have harr : ∀ ind : String, ∀ items seen,
          threadFmt (fun item s => formatArgumentF L h fuel item (depth + 1) s ind)
            items seen = some (fmtItems L h items (depth + 1) seen ind) :=
        fun ind => threadFmt_fmtItems2 L h (depth + 1) ind
          (fun item s => formatArgumentF L h fuel item (depth + 1) s ind) (ihd ind)
      have hobj : ∀ ind : String, ∀ entries seen,
          threadFmt (fun kv s =>
            match formatArgumentF L h fuel kv.2 (depth + 1) s ind with
            | none => none
            | some p => some (colorizeText L kv.1 .key ++ ": " ++ p.1, p.2))
            entries seen = some (fmtEntries L h entries (depth + 1) seen ind) :=
        fun ind => threadFmt_fmtEntries2 L h (depth + 1) ind
          (fun kv s =>
            match formatArgumentF L h fuel kv.2 (depth + 1) s ind with
            | none => none
            | some p => some (colorizeText L kv.1 .key ++ ": " ++ p.1, p.2)) (hGe ind)
      simp only [if_neg hd]
      cases arg with
      | vref r =>
        cases hr : h r with
        | arr elems =>
          simp only [hr, harr]
          split
          · rfl
          · split
            · rfl
            · split <;> rfl
        | obj entries =>
          simp only [hr, hobj]
          split
          · rfl
          · split
            · rfl
            · split <;> rfl
        | objThrows message =>
          simp only [hr]
          split <;> rfl
        | elem tagName attrs childCount =>
          simp only [hr]
          split
          · rfl
          · split <;> rfl
      | vstr s =>
        dsimp only
        split <;> rfl
      | _ => rfl

/-- Branch shape: extended fuel formatter on an already-seen array. -/
theorem fF2_arr_hit (L : Logger) (h : Heap) (fuel depth r : Nat)
    (elems : List JSVal) (seen : List Nat) (ind : String)
    (hd : ¬ depth > L.maxDepth) (hr : h r = .arr elems)
    (hcirc : (L.enableCircularHandling && decide (r ∈ seen)) = true) :
    formatArgumentF L h (fuel + 1) (.vref r) depth seen ind =
      some (colorizeText L "[Circular Reference]" .circular, seen) := by
  simp [formatArgumentF, hr, hd, hcirc]

/-- Branch shape: extended fuel formatter on a fresh empty array. -/
theorem fF2_arr_empty (L : Logger) (h : Heap) (fuel depth r : Nat)
    (elems : List JSVal) (seen seen1 : List Nat) (ind : String)
    (hd : ¬ depth > L.maxDepth) (hr : h r = .arr elems)
    (hfresh : (L.enableCircularHandling && decide (r ∈ seen)) = false)
    (he : elems.length = 0)
    (hseen1 : seen1 = if L.enableCircularHandling then r :: seen else seen) :
    formatArgumentF L h (fuel + 1) (.vref r) depth seen ind =
      some (colorizeText L "[]" .bracket, seen1) := by
  subst hseen1
  simp [formatArgumentF, hr, hd, hfresh, he]

/-- Branch shape: extended fuel formatter on a fresh non-empty array in
pretty mode. -/
theorem fF2_arr_pretty (L : Logger) (h : Heap) (fuel depth r : Nat)
    (elems : List JSVal) (seen seen1 : List Nat) (ind nextIndent : String)
    (hd : ¬ depth > L.maxDepth) (hr : h r = .arr elems)
    (hfresh : (L.enableCircularHandling && decide (r ∈ seen)) = false)
    (hne : ¬ elems.length = 0) (hp : L.prettyPrint = true)
    (hseen1 : seen1 = if L.enableCircularHandling then r :: seen else seen)
    (hni : nextIndent = ind ++ getIndentation L 1) :
    formatArgumentF L h (fuel + 1) (.vref r) depth seen ind =
      match threadFmt (fun item s => formatArgumentF L h fuel item (depth + 1) s nextIndent)
          elems seen1 with
      | none => none
      | some (strs, seen2) =>
        some (colorizeText L "[" .bracket ++ "\n" ++
          joinSep ",\n" (strs.map (fun s => nextIndent ++ s)) ++ "\n" ++
          ind ++ colorizeText L "]" .bracket, seen2) := by
  subst hseen1 hni
  simp [formatArgumentF, hr, hd, hfresh, hne, hp]

/-- Branch shape: extended fuel formatter on a fresh non-empty array in
compact mode. -/
theorem fF2_arr_compact (L : Logger) (h : Heap) (fuel depth r : Nat)
    (elems : List JSVal) (seen seen1 : List Nat) (ind : String)
    (hd : ¬ depth > L.maxDepth) (hr : h r = .arr elems)
    (hfresh : (L.enableCircularHandling && decide (r ∈ seen)) = false)
    (hne : ¬ elems.length = 0) (hp : L.prettyPrint = false)
    (hseen1 : seen1 = if L.enableCircularHandling then r :: seen else seen) :
    formatArgumentF L h (fuel + 1) (.vref r) depth seen ind =
      match threadFmt (fun item s => formatArgumentF L h fuel item (depth + 1) s "")
          elems seen1 with
      | none => none
      | some (strs, seen2) =>
        some (colorizeText L "[" .bracket ++ joinSep ", " strs ++
          colorizeText L "]" .bracket, seen2) := by
  subst hseen1
  simp [formatArgumentF, hr, hd, hfresh, hne, hp]

/-- Branch shape: extended fuel formatter on an already-seen object. -/
theorem fF2_obj_hit (L : Logger) (h : Heap) (fuel depth r : Nat)
    (entries : List (String × JSVal)) (seen : List Nat) (ind : String)
    (hd : ¬ depth > L.maxDepth) (hr : h r = .obj entries)
    (hcirc : (L.enableCircularHandling && decide (r ∈ seen)) = true) :
    formatArgumentF L h (fuel + 1) (.vref r) depth seen ind =
      some (colorizeText L "[Circular Reference]" .circular, seen) := by
  simp [formatArgumentF, hr, hd, hcirc]

/-- Branch shape: extended fuel formatter on a fresh empty object. -/
theorem fF2_obj_empty (L : Logger) (h : Heap) (fuel depth r : Nat)
    (entries : List (String × JSVal)) (seen seen1 : List Nat) (ind : String)
    (hd : ¬ depth > L.maxDepth) (hr : h r = .obj entries)
    (hfresh : (L.enableCircularHandling && decide (r ∈ seen)) = false)
    (he : entries.length = 0)
    (hseen1 : seen1 = if L.enableCircularHandling then r :: seen else seen) :
    formatArgumentF L h (fuel + 1) (.vref r) depth seen ind =
      some (colorizeText L "\x7b\x7d" .bracket, seen1) := by
  subst hseen1
  simp [formatArgumentF, hr, hd, hfresh, he]

/-- Branch shape: extended fuel formatter on a fresh non-empty object in
pretty mode. -/
theorem fF2_obj_pretty (L : Logger) (h : Heap) (fuel depth r : Nat)
    (entries : List (String × JSVal)) (seen seen1 : List Nat) (ind nextIndent : String)
    (hd : ¬ depth > L.maxDepth) (hr : h r = .obj entries)
    (hfresh : (L.enableCircularHandling && decide (r ∈ seen)) = false)
    (hne : ¬ entries.length = 0) (hp : L.prettyPrint = true)
    (hseen1 : seen1 = if L.enableCircularHandling then r :: seen else seen)
    (hni : nextIndent = ind ++ getIndentation L 1) :
    formatArgumentF L h (fuel + 1) (.vref r) depth seen ind =
      match threadFmt (fun kv s =>
          match formatArgumentF L h fuel kv.2 (depth + 1) s nextIndent with
          | none => none
          | some p => some (colorizeText L kv.1 .key ++ ": " ++ p.1, p.2))
          entries seen1 with
      | none => none
      | some (strs, seen2) =>
        some (colorizeText L "\x7b" .bracket ++ "\n" ++
          joinSep ",\n" (strs.map (fun s => nextIndent ++ s)) ++ "\n" ++
          ind ++ colorizeText L "\x7d" .bracket, seen2) := by
  subst hseen1 hni
  simp [formatArgumentF, hr, hd, hfresh, hne, hp]

/-- Branch shape: extended fuel formatter on a fresh non-empty object in
compact mode. -/
theorem fF2_obj_compact (L : Logger) (h : Heap) (fuel depth r : Nat)
    (entries : List (String × JSVal)) (seen seen1 : List Nat) (ind : String)
    (hd : ¬ depth > L.maxDepth) (hr : h r = .obj entries)
    (hfresh : (L.enableCircularHandling && decide (r ∈ seen)) = false)
    (hne : ¬ entries.length = 0) (hp : L.prettyPrint = false)
    (hseen1 : seen1 = if L.enableCircularHandling then r :: seen else seen) :
    formatArgumentF L h (fuel + 1) (.vref r) depth seen ind =
      match threadFmt (fun kv s =>
          match formatArgumentF L h fuel kv.2 (depth + 1) s "" with
          | none => none
          | some p => some (colorizeText L kv.1 .key ++ ": " ++ p.1, p.2))
          entries seen1 with
      | none => none
      | some (strs, seen2) =>
        some (colorizeText L "\x7b" .bracket ++ joinSep ", " strs ++
          colorizeText L "\x7d" .bracket, seen2) := by
  subst hseen1
  simp [formatArgumentF, hr, hd, hfresh, hne, hp]

/-- Branch shape: extended fuel formatter on an already-seen throwing
object. -/
theorem fF2_objThrows_hit (L : Logger) (h : Heap) (fuel depth r : Nat)
    (message : String) (seen : List Nat) (ind : String)
    (hd : ¬ depth > L.maxDepth) (hr : h r = .objThrows message)
    (hcirc : (L.enableCircularHandling && decide (r ∈ seen)) = true) :
    formatArgumentF L h (fuel + 1) (.vref r) depth seen ind =
      some (colorizeText L "[Circular Reference]" .circular, seen) := by
  simp [formatArgumentF, hr, hd, hcirc]

/-- Branch shape: extended fuel formatter on a fresh throwing object. -/
theorem fF2_objThrows_fresh (L : Logger) (h : Heap) (fuel depth r : Nat)
    (message : String) (seen seen1 : List Nat) (ind : String)
    (hd : ¬ depth > L.maxDepth) (hr : h r = .objThrows message)
    (hfresh : (L.enableCircularHandling && decide (r ∈ seen)) = false)
    (hseen1 : seen1 = if L.enableCircularHandling then r :: seen else seen) :
    formatArgumentF L h (fuel + 1) (.vref r) depth seen ind =
      some ("[Object: failed to stringify - " ++ message ++ "]", seen1) := by
  subst hseen1
  simp [formatArgumentF, hr, hd, hfresh]

/-- Branch shape: extended fuel formatter on a host element in a browser
context. -/
theorem fF2_elem_browser (L : Logger) (h : Heap) (fuel depth r : Nat)
    (tagName : String) (attrs : List Attr) (childCount : Nat) (seen : List Nat)
    (ind : String) (hd : ¬ depth > L.maxDepth)
    (hr : h r = .elem tagName attrs childCount) (hb : L.env.isBrowser = true) :
    formatArgumentF L h (fuel + 1) (.vref r) depth seen ind =
      some (formatDOMElement L tagName attrs childCount, seen) := by
  simp [formatArgumentF, hr, hd, hb]

/-- Branch shape: extended fuel formatter on an already-seen host element
outside a browser context. -/
theorem fF2_elem_nb_hit (L : Logger) (h : Heap) (fuel depth r : Nat)
    (tagName : String) (attrs : List Attr) (childCount : Nat) (seen : List Nat)
    (ind : String) (hd : ¬ depth > L.maxDepth)
    (hr : h r = .elem tagName attrs childCount) (hb : L.env.isBrowser = false)
    (hcirc : (L.enableCircularHandling && decide (r ∈ seen)) = true) :
    formatArgumentF L h (fuel + 1) (.vref r) depth seen ind =
      some (colorizeText L "[Circular Reference]" .circular, seen) := by
  simp [formatArgumentF, hr, hd, hb, hcirc]

/-- Branch shape: extended fuel formatter on a fresh host element outside a
browser context. -/
theorem fF2_elem_nb_fresh (L : Logger) (h : Heap) (fuel depth r : Nat)
    (tagName : String) (attrs : List Attr) (childCount : Nat)
    (seen seen1 : List Nat) (ind : String) (hd : ¬ depth > L.maxDepth)
    (hr : h r = .elem tagName attrs childCount) (hb : L.env.isBrowser = false)
    (hfresh : (L.enableCircularHandling && decide (r ∈ seen)) = false)
    (hseen1 : seen1 = if L.enableCircularHandling then r :: seen else seen) :
    formatArgumentF L h (fuel + 1) (.vref r) depth seen ind =
      some (colorizeText L "\x7b\x7d" .bracket, seen1) := by
  subst hseen1
  simp [formatArgumentF, hr, hd, hb, hfresh]

/-- Threading two step functions whose outputs agree after whitespace
stripping (and agree exactly on the seen set) produces lists of rendered
strings that agree pointwise after whitespace stripping, with identical
final seen sets. -/
theorem threadFmt_stripWS {α : Type} (g1 g2 : α → List Nat → Option (String × List Nat))
    (Hpt : ∀ a s, Option.map (fun p => (stripWS p.1, p.2)) (g1 a s) =
      Option.map (fun p => (stripWS p.1, p.2)) (g2 a s)) :
    ∀ items seen,
      Option.map (fun p => (p.1.map stripWS, p.2)) (threadFmt g1 items seen) =
        Option.map (fun p => (p.1.map stripWS, p.2)) (threadFmt g2 items seen) := by
  intro items
  induction items with
  | nil => intro seen; rfl
  | cons a rest ih =>
    intro seen
    simp only [threadFmt]
    have hpt := Hpt a seen
    cases hg1 : g1 a seen with
    | none =>
      rw [hg1] at hpt
      cases hg2 : g2 a seen with
      | some p => rw [hg2] at hpt; simp at hpt
      | none => rfl
    | some p1 =>
      rw [hg1] at hpt
      cases hg2 : g2 a seen with
      | none => rw [hg2] at hpt; simp at hpt
      | some p2 =>
        rw [hg2] at hpt
        obtain ⟨s1, t1⟩ := p1
        obtain ⟨s2, t2⟩ := p2
        simp at hpt
        obtain ⟨hs, ht⟩ := hpt
        subst ht
        dsimp only
        have hrest := ih t1
        cases h1 : threadFmt g1 rest t1 with
        | none =>
          rw [h1] at hrest
          cases h2 : threadFmt g2 rest t1 with
          | some w => rw [h2] at hrest; simp at hrest
          | none => rfl
        | some w1 =>
          rw [h1] at hrest
          cases h2 : threadFmt g2 rest t1 with
          | none => rw [h2] at hrest; simp at hrest
          | some w2 =>
            rw [h2] at hrest
            obtain ⟨ws1, wt1⟩ := w1
            obtain ⟨ws2, wt2⟩ := w2
            simp at hrest ⊢
            exact ⟨⟨hs, hrest.1⟩, hrest.2⟩

/-- Core of the pretty/compact equivalence: at every fuel, from any
whitespace-only indentation, the extended formatter in pretty mode and in
compact mode either both run out of fuel or return strings that are equal
after whitespace stripping, with identical final seen sets. -/
theorem formatArgumentF_pretty_compact (L : Logger) (h : Heap) :
    ∀ fuel arg depth seen ind1 ind2, stripWS ind1 = "" →
      Option.map (fun p => (stripWS p.1, p.2))
          (formatArgumentF { L with prettyPrint := true } h fuel arg depth seen ind1) =
        Option.map (fun p => (stripWS p.1, p.2))
          (formatArgumentF { L with prettyPrint := false } h fuel arg depth seen ind2) := by
  intro fuel
  induction fuel with
  | zero => intro arg depth seen ind1 ind2 _; rfl
  | succ fuel ih =>
    intro arg depth seen ind1 ind2 hind
    by_cases hd : depth > L.maxDepth
    · simp only [formatArgumentF]
      rw [if_pos hd, if_pos hd]
      rfl
    · have hni : stripWS (ind1 ++ getIndentation L 1) = "" := by
        rw [stripWS_append, hind, stripWS_getIndentation]
        rfl
      cases arg with
      | vref r =>
        cases hr : h r with
        | arr elems =>
          by_cases hcirc : (L.enableCircularHandling && decide (r ∈ seen)) = true
          · rw [fF2_arr_hit { L with prettyPrint := true } h fuel depth r elems seen ind1 hd hr hcirc,
              fF2_arr_hit { L with prettyPrint := false } h fuel depth r elems seen ind2 hd hr hcirc]
            rfl
          · have hfresh : (L.enableCircularHandling && decide (r ∈ seen)) = false := by
              simpa using hcirc
            by_cases he : elems.length = 0
            · rw [fF2_arr_empty { L with prettyPrint := true } h fuel depth r elems seen
                  (if L.enableCircularHandling then r :: seen else seen) ind1 hd hr hfresh he rfl,
                fF2_arr_empty { L with prettyPrint := false } h fuel depth r elems seen
                  (if L.enableCircularHandling then r :: seen else seen) ind2 hd hr hfresh he rfl]
              rfl
            · rw [fF2_arr_pretty { L with prettyPrint := true } h fuel depth r elems seen
                  (if L.enableCircularHandling then r :: seen else seen) ind1
                  (ind1 ++ getIndentation L 1) hd hr hfresh he rfl rfl rfl,
                fF2_arr_compact { L with prettyPrint := false } h fuel depth r elems seen
                  (if L.enableCircularHandling then r :: seen else seen) ind2 hd hr hfresh he rfl rfl]
              have hth := threadFmt_stripWS
                (fun item s => formatArgumentF { L with prettyPrint := true } h fuel item (depth + 1) s
                  (ind1 ++ getIndentation L 1))
                (fun item s => formatArgumentF { L with prettyPrint := false } h fuel item (depth + 1) s "")
                (fun a s => ih a (depth + 1) s (ind1 ++ getIndentation L 1) "" hni)
                elems (if L.enableCircularHandling then r :: seen else seen)
              cases t1 : threadFmt
                  (fun item s => formatArgumentF { L with prettyPrint := true } h fuel item (depth + 1) s
                    (ind1 ++ getIndentation L 1))
                  elems (if L.enableCircularHandling then r :: seen else seen) with
              | none =>
                rw [t1] at hth
                cases t2 : threadFmt
                    (fun item s => formatArgumentF { L with prettyPrint := false } h fuel item (depth + 1) s "")
                    elems (if L.enableCircularHandling then r :: seen else seen) with
                | some w => rw [t2] at hth; simp at hth
                | none => rfl
              | some w1 =>
                rw [t1] at hth
                cases t2 : threadFmt
                    (fun item s => formatArgumentF { L with prettyPrint := false } h fuel item (depth + 1) s "")
                    elems (if L.enableCircularHandling then r :: seen else seen) with
                | none => rw [t2] at hth; simp at hth
                | some w2 =>
                  rw [t2] at hth
                  obtain ⟨ws1, wt1⟩ := w1
                  obtain ⟨ws2, wt2⟩ := w2
                  simp at hth
                  obtain ⟨hws, hwt⟩ := hth
                  subst hwt
                  simp only [Option.map_some']
                  congr 1
                  refine Prod.ext ?_ rfl
                  dsimp only
                  have hf : List.Forall₂ (fun a b => stripWS a = stripWS b)
                      (ws1.map (fun s => (ind1 ++ getIndentation L 1) ++ s)) ws2 := by
                    refine List.Forall₂.imp (fun a b hab => hab)
                      (forall₂_of_map_eq stripWS stripWS _ _ ?_)
                    rw [List.map_map]
                    rw [show (stripWS ∘ fun s => (ind1 ++ getIndentation L 1) ++ s) =
                        fun s => stripWS s from ?_]
                    · exact hws
                    · funext s
                      show stripWS ((ind1 ++ getIndentation L 1) ++ s) = stripWS s
                      rw [stripWS_append, hni]
                      exact string_empty_append _
                  have hjoin := stripWS_joinSep ",\n" ", " (by rfl)
                    (ws1.map (fun s => (ind1 ++ getIndentation L 1) ++ s)) ws2 hf
                  conv_lhs => rw [stripWS_append, stripWS_append, stripWS_append,
                    stripWS_append, stripWS_append]
                  conv_rhs => rw [stripWS_append, stripWS_append]
                  rw [hjoin, hind, show stripWS "\n" = "" from rfl]
                  rw [show stripWS (colorizeText { L with prettyPrint := true } "[" .bracket) =
                    stripWS (colorizeText { L with prettyPrint := false } "[" .bracket) from rfl]
                  rw [show stripWS (colorizeText { L with prettyPrint := true } "]" .bracket) =
                    stripWS (colorizeText { L with prettyPrint := false } "]" .bracket) from rfl]
                  simp [string_append_empty]
        | obj entries =>
          by_cases hcirc : (L.enableCircularHandling && decide (r ∈ seen)) = true
          · rw [fF2_obj_hit { L with prettyPrint := true } h fuel depth r entries seen ind1 hd hr hcirc,
              fF2_obj_hit { L with prettyPrint := false } h fuel depth r entries seen ind2 hd hr hcirc]
            rfl
          · have hfresh : (L.enableCircularHandling && decide (r ∈ seen)) = false := by
              simpa using hcirc
            by_cases he : entries.length = 0
            · rw [fF2_obj_empty { L with prettyPrint := true } h fuel depth r entries seen
                  (if L.enableCircularHandling then r :: seen else seen) ind1 hd hr hfresh he rfl,
                fF2_obj_empty { L with prettyPrint := false } h fuel depth r entries seen
                  (if L.enableCircularHandling then r :: seen else seen) ind2 hd hr hfresh he rfl]
              rfl
            · rw [fF2_obj_pretty { L with prettyPrint := true } h fuel depth r entries seen
                  (if L.enableCircularHandling then r :: seen else seen) ind1
                  (ind1 ++ getIndentation L 1) hd hr hfresh he rfl rfl rfl,
                fF2_obj_compact { L with prettyPrint := false } h fuel depth r entries seen
                  (if L.enableCircularHandling then r :: seen else seen) ind2 hd hr hfresh he rfl rfl]
              have HptE : ∀ (kv : String × JSVal) (s : List Nat),
                  Option.map (fun p => (stripWS p.1, p.2))
                    ((fun kv (s : List Nat) =>
                      match formatArgumentF { L with prettyPrint := true } h fuel kv.2 (depth + 1) s
                          (ind1 ++ getIndentation L 1) with
                      | none => none
                      | some p => some (colorizeText { L with prettyPrint := true } kv.1 .key ++ ": " ++ p.1, p.2)) kv s) =
                  Option.map (fun p => (stripWS p.1, p.2))
                    ((fun kv (s : List Nat) =>
                      match formatArgumentF { L with prettyPrint := false } h fuel kv.2 (depth + 1) s "" with
                      | none => none
                      | some p => some (colorizeText { L with prettyPrint := false } kv.1 .key ++ ": " ++ p.1, p.2)) kv s) := by
                intro kv s
                have hkv := ih kv.2 (depth + 1) s (ind1 ++ getIndentation L 1) "" hni
                dsimp only
                cases u1 : formatArgumentF { L with prettyPrint := true } h fuel kv.2 (depth + 1) s
                    (ind1 ++ getIndentation L 1) with
                | none =>
                  rw [u1] at hkv
                  cases u2 : formatArgumentF { L with prettyPrint := false } h fuel kv.2 (depth + 1) s "" with
                  | some p => rw [u2] at hkv; simp at hkv
                  | none => rfl
                | some p1 =>
                  rw [u1] at hkv
                  cases u2 : formatArgumentF { L with prettyPrint := false } h fuel kv.2 (depth + 1) s "" with
                  | none => rw [u2] at hkv; simp at hkv
                  | some p2 =>
                    rw [u2] at hkv
                    obtain ⟨s1, t1⟩ := p1
                    obtain ⟨s2, t2⟩ := p2
                    simp at hkv ⊢
                    refine ⟨?_, hkv.2⟩
                    rw [stripWS_append, stripWS_append, stripWS_append, stripWS_append, hkv.1]
                    rfl
              have hth := threadFmt_stripWS
                (fun kv s =>
                  match formatArgumentF { L with prettyPrint := true } h fuel kv.2 (depth + 1) s
                      (ind1 ++ getIndentation L 1) with
                  | none => none
                  | some p => some (colorizeText { L with prettyPrint := true } kv.1 .key ++ ": " ++ p.1, p.2))
                (fun kv s =>
                  match formatArgumentF { L with prettyPrint := false } h fuel kv.2 (depth + 1) s "" with
                  | none => none
                  | some p => some (colorizeText { L with prettyPrint := false } kv.1 .key ++ ": " ++ p.1, p.2))
                HptE entries (if L.enableCircularHandling then r :: seen else seen)
              cases t1 : threadFmt
                  (fun kv s =>
                    match formatArgumentF { L with prettyPrint := true } h fuel kv.2 (depth + 1) s
                        (ind1 ++ getIndentation L 1) with
                    | none => none
                    | some p => some (colorizeText { L with prettyPrint := true } kv.1 .key ++ ": " ++ p.1, p.2))
                  entries (if L.enableCircularHandling then r :: seen else seen) with
              | none =>
                rw [t1] at hth
                cases t2 : threadFmt
                    (fun kv s =>
                      match formatArgumentF { L with prettyPrint := false } h fuel kv.2 (depth + 1) s "" with
                      | none => none
                      | some p => some (colorizeText { L with prettyPrint := false } kv.1 .key ++ ": " ++ p.1, p.2))
                    entries (if L.enableCircularHandling then r :: seen else seen) with
                | some w => rw [t2] at hth; simp at hth
                | none => rfl
              | some w1 =>
                rw [t1] at hth
                cases t2 : threadFmt
                    (fun kv s =>
                      match formatArgumentF { L with prettyPrint := false } h fuel kv.2 (depth + 1) s "" with
                      | none => none
                      | some p => some (colorizeText { L with prettyPrint := false } kv.1 .key ++ ": " ++ p.1, p.2))
                    entries (if L.enableCircularHandling then r :: seen else seen) with
                | none => rw [t2] at hth; simp at hth
                | some w2 =>
                  rw [t2] at hth
                  obtain ⟨ws1, wt1⟩ := w1
                  obtain ⟨ws2, wt2⟩ := w2
                  simp at hth
                  obtain ⟨hws, hwt⟩ := hth
                  subst hwt
                  simp only [Option.map_some']
                  congr 1
                  refine Prod.ext ?_ rfl
                  dsimp only
                  have hf : List.Forall₂ (fun a b => stripWS a = stripWS b)
                      (ws1.map (fun s => (ind1 ++ getIndentation L 1) ++ s)) ws2 := by
                    refine List.Forall₂.imp (fun a b hab => hab)
                      (forall₂_of_map_eq stripWS stripWS _ _ ?_)
                    rw [List.map_map]
                    rw [show (stripWS ∘ fun s => (ind1 ++ getIndentation L 1) ++ s) =
                        fun s => stripWS s from ?_]
                    · exact hws
                    · funext s
                      show stripWS ((ind1 ++ getIndentation L 1) ++ s) = stripWS s
                      rw [stripWS_append, hni]
                      exact string_empty_append _
                  have hjoin := stripWS_joinSep ",\n" ", " (by rfl)
                    (ws1.map (fun s => (ind1 ++ getIndentation L 1) ++ s)) ws2 hf
                  conv_lhs => rw [stripWS_append, stripWS_append, stripWS_append,
                    stripWS_append, stripWS_append]
                  conv_rhs => rw [stripWS_append, stripWS_append]
                  rw [hjoin, hind, show stripWS "\n" = "" from rfl]
                  rw [show stripWS (colorizeText { L with prettyPrint := true } "\x7b" .bracket) =
                    stripWS (colorizeText { L with prettyPrint := false } "\x7b" .bracket) from rfl]
                  rw [show stripWS (colorizeText { L with prettyPrint := true } "\x7d" .bracket) =
                    stripWS (colorizeText { L with prettyPrint := false } "\x7d" .bracket) from rfl]
                  simp [string_append_empty]
        | objThrows message =>
          by_cases hcirc : (L.enableCircularHandling && decide (r ∈ seen)) = true
          · rw [fF2_objThrows_hit { L with prettyPrint := true } h fuel depth r message seen ind1 hd hr hcirc,
              fF2_objThrows_hit { L with prettyPrint := false } h fuel depth r message seen ind2 hd hr hcirc]
            rfl
          · have hfresh : (L.enableCircularHandling && decide (r ∈ seen)) = false := by
              simpa using hcirc
            rw [fF2_objThrows_fresh { L with prettyPrint := true } h fuel depth r message seen
                (if L.enableCircularHandling then r :: seen else seen) ind1 hd hr hfresh rfl,
              fF2_objThrows_fresh { L with prettyPrint := false } h fuel depth r message seen
                (if L.enableCircularHandling then r :: seen else seen) ind2 hd hr hfresh rfl]
        | elem tagName attrs childCount =>
          by_cases hb : L.env.isBrowser
          · rw [fF2_elem_browser { L with prettyPrint := true } h fuel depth r tagName attrs childCount seen ind1 hd hr hb,
              fF2_elem_browser { L with prettyPrint := false } h fuel depth r tagName attrs childCount seen ind2 hd hr hb]
            rfl
          · have hb' : L.env.isBrowser = false := by simpa using hb
            by_cases hcirc : (L.enableCircularHandling && decide (r ∈ seen)) = true
            · rw [fF2_elem_nb_hit { L with prettyPrint := true } h fuel depth r tagName attrs childCount seen ind1 hd hr hb' hcirc,
                fF2_elem_nb_hit { L with prettyPrint := false } h fuel depth r tagName attrs childCount seen ind2 hd hr hb' hcirc]
              rfl
            · have hfresh : (L.enableCircularHandling && decide (r ∈ seen)) = false := by
                simpa using hcirc
              rw [fF2_elem_nb_fresh { L with prettyPrint := true } h fuel depth r tagName attrs childCount seen
                  (if L.enableCircularHandling then r :: seen else seen) ind1 hd hr hb' hfresh rfl,
                fF2_elem_nb_fresh { L with prettyPrint := false } h fuel depth r tagName attrs childCount seen
                  (if L.enableCircularHandling then r :: seen else seen) ind2 hd hr hb' hfresh rfl]
              rfl
      | vstr s =>
        simp only [formatArgumentF]
        rw [if_neg hd, if_neg hd]
        rfl
      | _ =>
        simp only [formatArgumentF]
        rw [if_neg hd, if_neg hd]
        try rfl

end V2

/-- Rendering an entry list preserves its length: one rendered string per
entry. -/
theorem fmtEntries_length (L : Logger) (h : Heap) (depth : Nat) :
    ∀ (entries : List (String × JSVal)) (seen : List Nat),
      (V1.fmtEntries L h entries depth seen).1.length = entries.length := by
  intro entries
  induction entries with
  | nil => intro seen; simp [V1.fmtEntries]
  | cons kv rest ih =>
    intro seen
    obtain ⟨key, value⟩ := kv
    simp [V1.fmtEntries, ih]

/-- The i-th rendered entry starts with the i-th key, in insertion order,
followed by `": "` and the value formatted (at the entry depth, from the
seen state threaded up to that entry). -/
theorem fmtEntries_keys (L : Logger) (h : Heap) (depth : Nat) :
    ∀ (entries : List (String × JSVal)) (seen : List Nat) (i : Nat),
      i < entries.length →
      ∃ s' : List Nat,
        (V1.fmtEntries L h entries depth seen).1.getD i "" =
          (entries.getD i ("", .vnull)).1 ++ ": " ++
            (V1.formatArgument L h (entries.getD i ("", .vnull)).2 depth s').1 := by
  intro entries
  induction entries with
  | nil => intro seen i hi; simp at hi
  | cons kv rest ih =>
    intro seen i hi
    obtain ⟨key, value⟩ := kv
    cases i with
    | zero => exact ⟨seen, by simp [V1.fmtEntries]⟩
    | succ i =>
      obtain ⟨s', hs'⟩ := ih (V1.formatArgument L h value depth seen).2 i
        (by simpa using hi)
      exact ⟨s', by simpa [V1.fmtEntries] using hs'⟩

/-- C1: the extended formatter is a total function into strings — every
input category takes a defined branch — and an introspection failure
(enumerating the object's entries throws) is caught locally and rendered as
the diagnostic placeholder rather than propagated. -/
theorem C1_total_never_throws :
    (∀ (L : Logger) (h : Heap) (arg : JSVal) (depth : Nat) (seen : List Nat)
      (ind : String),
      ∃ out : String × List Nat, V2.formatArgument L h arg depth seen ind = out) ∧
    (∀ (L : Logger) (h : Heap) (r : Nat) (message : String) (depth : Nat)
      (seen : List Nat) (ind : String),
      depth ≤ L.maxDepth → h r = .objThrows message →
      (L.enableCircularHandling = true → r ∉ seen) →
      V2.formatArgument L h (.vref r) depth seen ind =
        ("[Object: failed to stringify - " ++ message ++ "]",
          if L.enableCircularHandling then r :: seen else seen)) := by
  constructor
  · intro L h arg depth seen ind
    exact ⟨_, rfl⟩
  · intro L h r message depth seen ind hdep hr hnot
    have h1 : ¬ depth > L.maxDepth := by omega
    have h2 : ¬ (L.enableCircularHandling && decide (r ∈ seen)) = true := by
      by_cases hc : L.enableCircularHandling
      · simp [hc, hnot hc]
      · simp [hc]
    rw [V2.formatArgument.eq_def]
    simp [h1, hr, h2]

/-- Witness for C1 at a concrete input: an object whose enumeration throws
formats to the diagnostic placeholder carrying the failure reason. -/
theorem C1_total_never_throws_witness :
    V2.formatArgument defaultLogger throwHeap (.vref 0) 0 [] "" =
      ("[Object: failed to stringify - " ++
        "Cannot convert object to primitive value" ++ "]", [0]) := by
  have := C1_total_never_throws.2 defaultLogger throwHeap 0
    "Cannot convert object to primitive value" 0 [] "" (by decide) rfl
    (by intro _ hmem; simp at hmem)
  simpa using this

/-- C2: at entry to every recursive call, before any type dispatch or
container traversal, a depth beyond `maxDepth` yields the sentinel
`"[Max Depth Reached]"` for every value whatsoever — verbatim in the basic
formatter, as the colorized sentinel token in the extended one — with the
seen set untouched; and on an array chain nested deeper than `maxDepth`
(here `maxDepth = 2`) the sentinel appears at depth `maxDepth + 1` and no
deeper element is rendered. -/
theorem C2_max_depth_sentinel :
    (∀ (L : Logger) (h : Heap) (arg : JSVal) (depth : Nat) (seen : List Nat),
      depth > L.maxDepth →
        V1.formatArgument L h arg depth seen = ("[Max Depth Reached]", seen)) ∧
    (∀ (L : Logger) (h : Heap) (arg : JSVal) (depth : Nat) (seen : List Nat)
      (ind : String),
      depth > L.maxDepth →
        V2.formatArgument L h arg depth seen ind =
          (V2.colorizeText L "[Max Depth Reached]" .maxDepth, seen)) ∧
    V1.formatArgument { defaultLogger with maxDepth := 2 } chainHeap (.vref 0) 0 [] =
      ("[[[[Max Depth Reached]]]]", [2, 1, 0]) := by
  refine ⟨?_, ?_, ?_⟩
  · intro L h arg depth seen hd
    rw [V1.formatArgument.eq_def]
    simp [hd]
  · intro L h arg depth seen ind hd
    rw [V2.formatArgument.eq_def]
    simp [hd]
  · have h1 := V1.formatArgumentF_eq_formatArgument
      { defaultLogger with maxDepth := 2 } chainHeap 4 (.vref 0) 0 []
      (by decide) (by decide)
    have h2 : V1.formatArgumentF { defaultLogger with maxDepth := 2 } chainHeap
        4 (.vref 0) 0 [] = some ("[[[[Max Depth Reached]]]]", [2, 1, 0]) := by decide
    exact Option.some.inj (h1.symm.trans h2)

/-- Witness for C2 at concrete inputs: depth 6 exceeds the default
`maxDepth` of 5, so any value formats to the sentinel. -/
theorem C2_max_depth_sentinel_witness :
    V1.formatArgument defaultLogger chainHeap .vnull 6 [] = ("[Max Depth Reached]", []) ∧
    V2.formatArgument defaultLogger chainHeap .vnull 6 [] "" =
      (V2.colorizeText defaultLogger "[Max Depth Reached]" .maxDepth, []) :=
  ⟨C2_max_depth_sentinel.1 defaultLogger chainHeap .vnull 6 [] (by decide),
   C2_max_depth_sentinel.2.1 defaultLogger chainHeap .vnull 6 [] "" (by decide)⟩

/-- C3: for the basic formatter, a string no longer than `maxStringLength`
is returned unchanged, with no truncation marker, including the boundary
case of exact length; a strictly longer string renders as its first
`maxStringLength` characters followed by `"..."` and a truncation marker
citing the original total length. -/
theorem C3_string_truncation (L : Logger) (h : Heap) (s : String) (depth : Nat)
    (seen : List Nat) (hdep : depth ≤ L.maxDepth) :
    (s.length ≤ L.maxStringLength →
      V1.formatArgument L h (.vstr s) depth seen = (s, seen)) ∧
    (s.length > L.maxStringLength →
      V1.formatArgument L h (.vstr s) depth seen =
        (s.take L.maxStringLength ++ "... [truncated, " ++ toString s.length ++
          " chars total]", seen)) := by
  constructor
  · intro hlen
    rw [V1.formatArgument.eq_def]
    have h1 : ¬ depth > L.maxDepth := by omega
    have h2 : ¬ s.length > L.maxStringLength := by omega
    simp [h1, h2]
  · intro hlen
    rw [V1.formatArgument.eq_def]
    have h1 : ¬ depth > L.maxDepth := by omega
    simp [h1, hlen]

/-- Witness for C3: with `maxStringLength = 3`, the five-character string
`"abcde"` truncates to its first three characters plus the marker citing 5,
while at the default limit the same string is returned unchanged. -/
theorem C3_string_truncation_witness :
    V1.formatArgument { defaultLogger with maxStringLength := 3 } selfHeap
        (.vstr "abcde") 0 [] =
      (("abcde".take 3 ++ "... [truncated, " ++ toString "abcde".length ++
        " chars total]"), []) ∧
    V1.formatArgument defaultLogger selfHeap (.vstr "abcde") 0 [] = ("abcde", []) :=
  ⟨(C3_string_truncation { defaultLogger with maxStringLength := 3 } selfHeap
      "abcde" 0 [] (by decide)).2 (by decide),
   (C3_string_truncation defaultLogger selfHeap "abcde" 0 [] (by decide)).1 (by decide)⟩

/-- C4: with circular handling enabled, a container (array or generic
object) whose identity is already in the seen set formats as
`"[Circular Reference]"`; entries are added on first visit and never removed
within the call (the final seen set always extends the initial one); hence a
non-cyclic object shared by two sibling branches is reported circular on its
second occurrence, and `x = {}; x.self = x` formats as
`{self: [Circular Reference]}`. -/
theorem C4_circular_reference :
    (∀ (L : Logger) (h : Heap) (r : Nat) (depth : Nat) (seen : List Nat),
      depth ≤ L.maxDepth → L.enableCircularHandling = true → r ∈ seen →
      ((∃ elems, h r = .arr elems) ∨ (∃ entries, h r = .obj entries)) →
        V1.formatArgument L h (.vref r) depth seen = ("[Circular Reference]", seen)) ∧
    (∀ (L : Logger) (h : Heap) (arg : JSVal) (depth : Nat) (seen : List Nat),
      ∃ l, (V1.formatArgument L h arg depth seen).2 = l ++ seen) ∧
    V1.formatArgument defaultLogger sharedHeap (.vref 0) 0 [] =
      ("\x7ba: \x7b\x7d, b: [Circular Reference]\x7d", [1, 0]) ∧
    V1.formatArgument defaultLogger selfHeap (.vref 0) 0 [] =
      ("\x7bself: [Circular Reference]\x7d", [0]) := by
  refine ⟨?_, V1.formatArgument_seen_suffix, ?_, ?_⟩
  · intro L h r depth seen hdep hcirc hmem hcont
    have h1 : ¬ depth > L.maxDepth := by omega
    rw [V1.formatArgument.eq_def]
    rcases hcont with ⟨elems, hr⟩ | ⟨entries, hr⟩ <;> simp [h1, hr, hcirc, hmem]
  · have h1 := V1.formatArgumentF_eq_formatArgument defaultLogger sharedHeap 7
      (.vref 0) 0 [] (by decide) (by decide)
    have h2 : V1.formatArgumentF defaultLogger sharedHeap 7 (.vref 0) 0 [] =
        some ("\x7ba: \x7b\x7d, b: [Circular Reference]\x7d", [1, 0]) := by decide
    exact Option.some.inj (h1.symm.trans h2)
  · have h1 := V1.formatArgumentF_eq_formatArgument defaultLogger selfHeap 7
      (.vref 0) 0 [] (by decide) (by decide)
    have h2 : V1.formatArgumentF defaultLogger selfHeap 7 (.vref 0) 0 [] =
        some ("\x7bself: [Circular Reference]\x7d", [0]) := by decide
    exact Option.some.inj (h1.symm.trans h2)

/-- Witness for C4 at a concrete input: reference 0 is already in the seen
set, so the self-referential object formats to the circular sentinel. -/
theorem C4_circular_reference_witness :
    V1.formatArgument defaultLogger selfHeap (.vref 0) 0 [0] =
      ("[Circular Reference]", [0]) :=
  C4_circular_reference.1 defaultLogger selfHeap 0 0 [0] (by decide) (by decide)
    (by decide) (Or.inr ⟨[("self", .vref 0)], rfl⟩)

/-- C5: the recursion of both formatters is depth-bounded and hence
terminates on every input, including cyclic heaps: each recursive call
increments `depth` by exactly 1 and the entry check stops any call with
`depth > maxDepth`, so a fuel budget of `maxDepth + 2` stack frames (the
top-level frame at depth 0 plus at most `maxDepth + 1` nested recursive
calls) is never exhausted — the fuel-indexed formatter already equals the
total formatter there. -/
theorem C5_depth_bounded_termination :
    (∀ (L : Logger) (h : Heap) (arg : JSVal),
      V1.formatArgumentF L h (L.maxDepth + 2) arg 0 [] =
        some (V1.formatArgument L h arg 0 [])) ∧
    (∀ (L : Logger) (h : Heap) (arg : JSVal) (ind : String),
      V2.formatArgumentF L h (L.maxDepth + 2) arg 0 [] ind =
        some (V2.formatArgument L h arg 0 [] ind)) :=
  ⟨fun L h arg => V1.formatArgumentF_eq_formatArgument L h (L.maxDepth + 2) arg 0 []
      (by omega) (by omega),
   fun L h arg ind => V2.formatArgumentF_eq_formatArgument2 L h (L.maxDepth + 2) arg 0 [] ind
      (by omega) (by omega)⟩

/-- C6: for every input value and configuration, the extended formatter's
pretty-print output and compact output, after stripping whitespace (spaces
and newlines), are textually identical, and the two runs leave the visited
set in the same state: the two modes differ only in whitespace, never in
content. -/
theorem C6_pretty_compact_same_content (L : Logger) (h : Heap) (arg : JSVal) :
    stripWS (V2.formatArgument { L with prettyPrint := true } h arg 0 [] "").1 =
      stripWS (V2.formatArgument { L with prettyPrint := false } h arg 0 [] "").1 ∧
    (V2.formatArgument { L with prettyPrint := true } h arg 0 [] "").2 =
      (V2.formatArgument { L with prettyPrint := false } h arg 0 [] "").2 := by
  have hb1 := V2.formatArgumentF_eq_formatArgument2 { L with prettyPrint := true }
    h (L.maxDepth + 2) arg 0 [] "" (by omega) (by simp)
  have hb2 := V2.formatArgumentF_eq_formatArgument2 { L with prettyPrint := false }
    h (L.maxDepth + 2) arg 0 [] "" (by omega) (by simp)
  have hm := V2.formatArgumentF_pretty_compact L h (L.maxDepth + 2) arg 0 [] "" "" rfl
  rw [hb1, hb2] at hm
  simp at hm
  exact hm

/-- C7: a generic object renders from its own enumerable string-keyed
entries only, in insertion order — one rendered entry per entry, the i-th
being `key_i: formattedValue_i` with the value formatted at `depth + 1` —
joined with `", "` and wrapped in braces; the empty object renders as `{}`;
and `format({a: 1, b: [1, 2, 3]})` at the defaults yields
`{a: 1, b: [1, 2, 3]}` with key order preserved and no truncation or
circular markers. -/
theorem C7_generic_object :
    (∀ (L : Logger) (h : Heap) (r : Nat) (entries : List (String × JSVal))
      (depth : Nat) (seen : List Nat),
      depth ≤ L.maxDepth → h r = .obj entries →
      (L.enableCircularHandling = true → r ∉ seen) →
      V1.formatArgument L h (.vref r) depth seen =
        ("\x7b" ++ joinSep ", "
            (V1.fmtEntries L h entries (depth + 1)
              (if L.enableCircularHandling then r :: seen else seen)).1 ++ "\x7d",
          (V1.fmtEntries L h entries (depth + 1)
            (if L.enableCircularHandling then r :: seen else seen)).2)) ∧
    (∀ (L : Logger) (h : Heap) (depth : Nat) (entries : List (String × JSVal))
      (seen : List Nat),
      (V1.fmtEntries L h entries depth seen).1.length = entries.length ∧
      (∀ i, i < entries.length →
        ∃ s' : List Nat,
          (V1.fmtEntries L h entries depth seen).1.getD i "" =
            (entries.getD i ("", .vnull)).1 ++ ": " ++
              (V1.formatArgument L h (entries.getD i ("", .vnull)).2 depth s').1)) ∧
    (∀ (L : Logger) (h : Heap) (r : Nat) (depth : Nat) (seen : List Nat),
      depth ≤ L.maxDepth → h r = .obj [] →
      (L.enableCircularHandling = true → r ∉ seen) →
      V1.formatArgument L h (.vref r) depth seen =
        ("\x7b\x7d", if L.enableCircularHandling then r :: seen else seen)) ∧
    V1.formatArgument defaultLogger abHeap (.vref 0) 0 [] =
      ("\x7ba: 1, b: [1, 2, 3]\x7d", [1, 0]) := by
  have hobj : ∀ (L : Logger) (h : Heap) (r : Nat) (entries : List (String × JSVal))
      (depth : Nat) (seen : List Nat),
      depth ≤ L.maxDepth → h r = .obj entries →
      (L.enableCircularHandling = true → r ∉ seen) →
      V1.formatArgument L h (.vref r) depth seen =
        ("\x7b" ++ joinSep ", "
            (V1.fmtEntries L h entries (depth + 1)
              (if L.enableCircularHandling then r :: seen else seen)).1 ++ "\x7d",
          (V1.fmtEntries L h entries (depth + 1)
            (if L.enableCircularHandling then r :: seen else seen)).2) := by
    intro L h r entries depth seen hdep hr hnot
    have h1 : ¬ depth > L.maxDepth := by omega
    rw [V1.formatArgument.eq_def]
    have h2 : ¬ (L.enableCircularHandling && decide (r ∈ seen)) = true := by
      by_cases hc : L.enableCircularHandling
      · simp [hc, hnot hc]
      · simp [hc]
    simp [h1, hr, h2]
  refine ⟨hobj, ?_, ?_, ?_⟩
  · intro L h depth entries seen
    exact ⟨fmtEntries_length L h depth entries seen,
      fun i hi => fmtEntries_keys L h depth entries seen i hi⟩
  · intro L h r depth seen hdep hr hnot
    rw [hobj L h r [] depth seen hdep hr hnot]
    simp [V1.fmtEntries, joinSep]
  · have h1 := V1.formatArgumentF_eq_formatArgument defaultLogger abHeap 7
      (.vref 0) 0 [] (by decide) (by decide)
    have h2 : V1.formatArgumentF defaultLogger abHeap 7 (.vref 0) 0 [] =
        some ("\x7ba: 1, b: [1, 2, 3]\x7d", [1, 0]) := by decide
    exact Option.some.inj (h1.symm.trans h2)

/-- Witness for C7 at a concrete input: the empty object at reference 1 of
`sharedHeap` renders as `{}` and is registered in the seen set. -/
theorem C7_generic_object_witness :
    V1.formatArgument defaultLogger sharedHeap (.vref 1) 0 [] = ("\x7b\x7d", [1]) := by
  have := C7_generic_object.2.2.1 defaultLogger sharedHeap 1 0 [] (by decide)
    (by decide) (by intro _ hmem; simp at hmem)
  simpa using this

/-- C8: with colors off (so that the colorize wrapper is the identity) and
within the depth limit, the extended formatter renders a big-integer-like
value as its literal form with the distinguishing `n` suffix — making it
different from the same literal as an ordinary number — while numbers,
booleans and symbol-like values render as their plain stringified literal
form. -/
theorem C8_primitive_literals (L : Logger) (h : Heap) (depth : Nat)
    (seen : List Nat) (ind : String) (hdep : depth ≤ L.maxDepth)
    (hcol : L.useColors = false) :
    (∀ s, V2.formatArgument L h (.vbigint s) depth seen ind = (s ++ "n", seen)) ∧
    (∀ s, (V2.formatArgument L h (.vbigint s) depth seen ind).1 ≠
      (V2.formatArgument L h (.vnum s) depth seen ind).1) ∧
    (∀ s, V2.formatArgument L h (.vnum s) depth seen ind = (s, seen)) ∧
    (∀ b, V2.formatArgument L h (.vbool b) depth seen ind =
      (if b then "true" else "false", seen)) ∧
    (∀ s, V2.formatArgument L h (.vsymbol s) depth seen ind = (s, seen)) := by
  have h1 : ¬ depth > L.maxDepth := by omega
  have hbig : ∀ s, V2.formatArgument L h (.vbigint s) depth seen ind = (s ++ "n", seen) := by
    intro s
    rw [V2.formatArgument.eq_def]
    simp [h1, V2.colorizeText, hcol]
  have hnum : ∀ s, V2.formatArgument L h (.vnum s) depth seen ind = (s, seen) := by
    intro s
    rw [V2.formatArgument.eq_def]
    simp [h1, V2.colorizeText, hcol]
  refine ⟨hbig, ?_, hnum, ?_, ?_⟩
  · intro s
    rw [hbig, hnum]
    intro hcontra
    have := congrArg String.length hcontra
    simp [String.length_append] at this
    exact absurd this (by decide)
  · intro b
    rw [V2.formatArgument.eq_def]
    simp [h1, V2.colorizeText, hcol]
  · intro s
    rw [V2.formatArgument.eq_def]
    simp [h1, V2.colorizeText, hcol]

/-- Witness for C8 at concrete inputs with colors disabled: the bigint 42
renders as `42n`, the number 42 as `42`. -/
theorem C8_primitive_literals_witness :
    V2.formatArgument { defaultLogger with useColors := false } selfHeap
        (.vbigint "42") 0 [] "" = ("42" ++ "n", []) ∧
    V2.formatArgument { defaultLogger with useColors := false } selfHeap
        (.vnum "42") 0 [] "" = ("42", []) :=
  ⟨(C8_primitive_literals { defaultLogger with useColors := false } selfHeap 0 [] ""
      (by decide) (by decide)).1 "42",
   (C8_primitive_literals { defaultLogger with useColors := false } selfHeap 0 [] ""
      (by decide) (by decide)).2.2.1 "42"⟩

/-- C9 counterexample: in a UI-capable context with `inspect` mode, an
element with zero children renders as `<div>` — a string containing no
digit, hence no child count at all — contradicting the claim that inspect
mode emits the tag name with the full attribute list and the child count for
every element. -/
theorem C9_dom_element_counterexample :
    V2.formatDOMElement
      { defaultLogger with domElementFormat := .inspect, env := browserEnv }
      "div" [] 0 = "<div>" ∧
    ("<div>".data.all fun c => !c.isDigit) = true := by
  constructor
  · decide
  · decide

/-- C9 amended: element rendering is reached by the extended formatter only
in a UI-capable (browser) context; within the element renderer, `disabled`
mode and any non-UI-capable context yield the generic placeholder
`"[DOM Element]"`; in a UI-capable context, `summary` mode emits the tag
name with the attribute count and the child count, and `inspect` mode emits
the tag name with the full attribute list, plus the child count when the
element has at least one child (omitted when it has none). -/
theorem C9_dom_element_amended :
    (∀ (L : Logger) (tagName : String) (attrs : List Attr) (childCount : Nat),
      L.domElementFormat = .disabled →
        V2.formatDOMElement L tagName attrs childCount = "[DOM Element]") ∧
    (∀ (L : Logger) (tagName : String) (attrs : List Attr) (childCount : Nat),
      L.env.isBrowser = false →
        V2.formatDOMElement L tagName attrs childCount = "[DOM Element]") ∧
    (∀ (L : Logger) (tagName : String) (attrs : List Attr) (childCount : Nat),
      L.env.isBrowser = true → L.domElementFormat = .summary →
        V2.formatDOMElement L tagName attrs childCount =
          "<" ++ toLowerStr tagName ++ "> with " ++ toString attrs.length ++
            " attributes and " ++ toString childCount ++ " children") ∧
    (∀ (L : Logger) (tagName : String) (attrs : List Attr) (childCount : Nat),
      L.env.isBrowser = true → L.domElementFormat = .inspect →
        V2.formatDOMElement L tagName attrs childCount =
          "<" ++ toLowerStr tagName ++ formatAttrs attrs ++ ">" ++
            (if childCount > 0 then " (" ++ toString childCount ++ " children)"
             else "")) ∧
    (∀ (L : Logger) (h : Heap) (r : Nat) (tagName : String) (attrs : List Attr)
      (childCount : Nat) (depth : Nat) (seen : List Nat) (ind : String),
      depth ≤ L.maxDepth → h r = .elem tagName attrs childCount →
      L.env.isBrowser = true →
        V2.formatArgument L h (.vref r) depth seen ind =
          (V2.formatDOMElement L tagName attrs childCount, seen)) := by
  refine ⟨?_, ?_, ?_, ?_, ?_⟩
  · intro L tagName attrs childCount hdis
    simp [V2.formatDOMElement, hdis]
  · intro L tagName attrs childCount hb
    rw [V2.formatDOMElement]
    split
    · rfl
    · simp [hb]
  · intro L tagName attrs childCount hb hsum
    simp [V2.formatDOMElement, hb, hsum]
  · intro L tagName attrs childCount hb hins
    simp [V2.formatDOMElement, hb, hins]
  · intro L h r tagName attrs childCount depth seen ind hdep hr hb
    have h1 : ¬ depth > L.maxDepth := by omega
    rw [V2.formatArgument.eq_def]
    simp [h1, hr, hb]

/-- Witness for the amended C9 at concrete inputs: a childless `div` with
one attribute in a browser context renders as the summary string in summary
mode and with its attribute list in inspect mode. -/
theorem C9_dom_element_amended_witness :
    V2.formatDOMElement { defaultLogger with env := browserEnv }
        "DIV" [{ name := "id", value := "app" }] 0 =
      "<" ++ toLowerStr "DIV" ++ "> with " ++ toString (1 : Nat) ++
        " attributes and " ++ toString (0 : Nat) ++ " children" ∧
    V2.formatDOMElement
        { defaultLogger with domElementFormat := .inspect, env := browserEnv }
        "DIV" [{ name := "id", value := "app" }] 2 =
      "<" ++ toLowerStr "DIV" ++ formatAttrs [{ name := "id", value := "app" }] ++ ">" ++
        (" (" ++ toString (2 : Nat) ++ " children)") := by
  constructor
  · exact C9_dom_element_amended.2.2.1 { defaultLogger with env := browserEnv }
      "DIV" [{ name := "id", value := "app" }] 0 rfl rfl
  · have := C9_dom_element_amended.2.2.2.1
      { defaultLogger with domElementFormat := .inspect, env := browserEnv }
      "DIV" [{ name := "id", value := "app" }] 2 rfl rfl
    simpa using this

/-- C10: on a tree-shaped input — one whose container-reference trace within
the depth bound is duplicate-free, so no container occurs twice — the basic
formatter's output with `enableCircularHandling` on is identical to its
output with it off: the flag only consults and updates the visited set,
which such inputs never hit. -/
theorem C10_circular_flag_no_effect (L : Logger) (h : Heap) (arg : JSVal)
    (htree : (V1.refsF L h (L.maxDepth + 2) arg 0).Nodup) :
    (V1.formatArgument { L with enableCircularHandling := true } h arg 0 []).1 =
      (V1.formatArgument { L with enableCircularHandling := false } h arg 0 []).1 := by
  have hb1 := V1.formatArgumentF_eq_formatArgument
    { L with enableCircularHandling := true } h (L.maxDepth + 2) arg 0 []
    (by omega) (by simp)
  have hb2 := V1.formatArgumentF_eq_formatArgument
    { L with enableCircularHandling := false } h (L.maxDepth + 2) arg 0 []
    (by omega) (by simp)
  obtain ⟨h1, _⟩ := V1.formatArgumentF_circ_flag L h (L.maxDepth + 2) arg 0 [] []
    htree (by simp)
  rw [hb1, hb2] at h1
  simpa using h1

/-- Witness for C10 at a concrete input: the tree-shaped `{a: 1, b: [1, 2,
3]}` formats identically with circular handling on and off. -/
theorem C10_circular_flag_no_effect_witness :
    (V1.formatArgument { defaultLogger with enableCircularHandling := true }
        abHeap (.vref 0) 0 []).1 =
      (V1.formatArgument { defaultLogger with enableCircularHandling := false }
        abHeap (.vref 0) 0 []).1 :=
  C10_circular_flag_no_effect defaultLogger abHeap (.vref 0) (by decide)

end Untools
